import Mathlib

/-!
Verification of the Rofunc robot-learning toolkit against its
natural-language specification.

The Python sources are shallowly embedded in Lean.  Machine floats are
modelled by real numbers, tensors of shape (n,) by `List ℝ`, batched
tensors by lists of lists, and quaternions in xyzw layout by a `Quat`
structure.  Neural networks (MLP backbones, discriminators, preprocessors)
are opaque parameters: they enter the embedding as plain functions, since
the verified properties quantify over their outputs.  Every definition is
translated line by line from the corresponding Python function; the file
headers of each section name the source file and symbol.
-/

namespace Rofunc

/-! ## Generic list and vector helpers -/

/-- Dot product of two real vectors (truncating zip, as in numpy). -/
def dotList (a b : List ℝ) : ℝ := (List.zipWith (fun x y => x * y) a b).sum

/-- Sum of squares of the entries of a vector. -/
def normSq (v : List ℝ) : ℝ := (v.map (fun x => x ^ 2)).sum

/-- Euclidean (L2) norm of a vector, `torch.norm` with p=2. -/
noncomputable def l2norm (v : List ℝ) : ℝ := Real.sqrt (normSq v)

/-- Minimum of a list of reals (`torch.min` over a nonempty tensor);
the empty case is junk and is never used under the theorems' hypotheses. -/
noncomputable def listMin : List ℝ → ℝ
  | [] => 0
  | [a] => a
  | a :: b :: rest => min a (listMin (b :: rest))

/-- Arithmetic mean of a list (`torch.mean`). -/
noncomputable def meanList (l : List ℝ) : ℝ := l.sum / l.length

/-- Sample standard deviation with Bessel correction (`torch.std`,
which divides by n - 1 by default). -/
noncomputable def stdList (l : List ℝ) : ℝ :=
  Real.sqrt ((l.map (fun x => (x - meanList l) ^ 2)).sum / (l.length - 1))

/-- `torch.clamp(x, lo, hi)`. -/
noncomputable def clampR (x lo hi : ℝ) : ℝ := min (max x lo) hi

lemma normSq_nonneg (v : List ℝ) : 0 ≤ normSq v := by
  unfold normSq
  apply List.sum_nonneg
  intro x hx
  rcases List.mem_map.1 hx with ⟨y, _, rfl⟩
  positivity

lemma listMin_mem : (l : List ℝ) → l ≠ [] → listMin l ∈ l
  | [], h => absurd rfl h
  | [a], _ => by simp [listMin]
  | a :: b :: rest, _ => by
      rcases le_or_lt a (listMin (b :: rest)) with h | h
      · simp [listMin, min_eq_left h]
      · have : listMin (a :: b :: rest) = listMin (b :: rest) := by
          simp [listMin, min_eq_right h.le]
        rw [this]
        exact List.mem_cons_of_mem a (listMin_mem (b :: rest) (by simp))

lemma listMin_map_add (c : ℝ) :
    (l : List ℝ) → l ≠ [] → listMin (l.map (fun x => x + c)) = listMin l + c
  | [], h => absurd rfl h
  | [a], _ => by simp [listMin]
  | a :: b :: rest, _ => by
      have ih := listMin_map_add c (b :: rest) (by simp)
      show min (a + c) (listMin ((b :: rest).map (fun x => x + c)))
        = min a (listMin (b :: rest)) + c
      rw [ih, min_add_add_right]

/-! ## Source: learning/RofuncRL/models/actor_models.py — `ActorPPO_Beta` (C9)

`softplus` follows the PyTorch implementation of `F.softplus`
(`beta = 1`, `threshold = 20`): it reverts to the identity above the
threshold and is `log(1 + exp x)` below it. -/

/-- PyTorch `F.softplus` with default beta and threshold. -/
noncomputable def softplus (x : ℝ) : ℝ :=
  if 20 < x then x else Real.log (1 + Real.exp x)

/-- A fully-connected layer `nn.Linear`: weight rows `W`, bias `b`. -/
def linearLayer (W : List (List ℝ)) (b : List ℝ) (x : List ℝ) : List ℝ :=
  List.zipWith (fun row bi => dotList row x + bi) W b

/-- `ActorPPO_Beta`: an MLP backbone (opaque) followed by two linear
heads producing the Beta-distribution parameters. -/
structure ActorPPOBeta where
  backbone : List ℝ → List ℝ
  alphaW : List (List ℝ)
  alphaB : List ℝ
  betaW : List (List ℝ)
  betaB : List ℝ

/-- `ActorPPO_Beta.forward`: alpha and beta are softplus of the head
outputs plus 1.0. -/
noncomputable def ActorPPOBeta.forward (m : ActorPPOBeta) (state : List ℝ) :
    List ℝ × List ℝ :=
  let s := m.backbone state
  ((linearLayer m.alphaW m.alphaB s).map (fun t => softplus t + 1.0),
   (linearLayer m.betaW m.betaB s).map (fun t => softplus t + 1.0))

/-- `ActorPPO_Beta.get_dist`: the (alpha, beta) parameter pair handed to
`Beta(alpha, beta)`. -/
noncomputable def ActorPPOBeta.getDistParams (m : ActorPPOBeta) (state : List ℝ) :
    List ℝ × List ℝ :=
  m.forward state

/-- `ActorPPO_Beta.mean`: alpha / (alpha + beta), elementwise. -/
noncomputable def ActorPPOBeta.meanOut (m : ActorPPOBeta) (state : List ℝ) : List ℝ :=
  List.zipWith (fun a b => a / (a + b)) (m.forward state).1 (m.forward state).2

lemma softplus_pos (x : ℝ) : 0 < softplus x := by
  unfold softplus
  split
  · linarith
  · apply Real.log_pos
    have := Real.exp_pos x
    linarith

/-! ## Source: learning/RofuncRL/models/actor_models.py — `BaseActor.update_parameters` (C10)

The in-place update walks `zip(self.parameters(), model.parameters())`;
parameters of `self` beyond the zipped prefix are untouched, and nothing
is ever written into `model`.  The embedding returns the new parameter
list of `self` together with the (unchanged) parameter list of `model`. -/

/-- `BaseActor.update_parameters` acting on the flattened parameter lists of
`self` and `model`.  `polyak = 1` takes the hard-update branch
(`copy_`), any other value the soft-update branch
(`mul_(1 - polyak)` then `add_(polyak * model)`). -/
noncomputable def updateParameters : List ℝ → List ℝ → ℝ → List ℝ
  | [], _, _ => []
  | θ :: rest, [], _ => θ :: rest
  | θ :: rest, θn :: restn, p =>
      (if p = 1 then θn else (1 - p) * θ + p * θn) :: updateParameters rest restn p

/-- The full effect of `BaseActor.update_parameters` on the pair
(self parameters, model parameters): only `self` is mutated. -/
noncomputable def updateParametersPair (selfP modelP : List ℝ) (p : ℝ) :
    List ℝ × List ℝ :=
  (updateParameters selfP modelP p, modelP)

/-! ## Source: learning/RofuncRL/agents/mixline/hotu_hlmm_agent.py —
`HOTUHLMMAgent._get_llc_disc_reward` and the `demo_style_rewards` block of
`update_net` (C4) -/

/-- Logistic sigmoid, written as in the source: `1 / (1 + exp(-x))`. -/
noncomputable def sigmoidR (x : ℝ) : ℝ := 1 / (1 + Real.exp (-x))

/-- Style reward derived from one discriminator logit, as computed both in
`_get_llc_disc_reward` and in the `demo_style_rewards` block of
`update_net`: a least-squares bound or a negative log-probability, scaled
by the discriminator reward scale. -/
noncomputable def discRewardPerLogit (leastSquare : Bool) (scale logit : ℝ) : ℝ :=
  (if leastSquare then max (1 - 0.25 * (1 - logit) ^ 2) 0.0001
   else - Real.log (max (1 - sigmoidR logit) 0.0001)) * scale

/-- Batched style reward over a list of discriminator logits. -/
noncomputable def discRewards (leastSquare : Bool) (scale : ℝ) (logits : List ℝ) :
    List ℝ :=
  logits.map (discRewardPerLogit leastSquare scale)

lemma sigmoidR_pos (x : ℝ) : 0 < sigmoidR x := by
  unfold sigmoidR
  have := Real.exp_pos (-x)
  positivity

lemma sigmoidR_lt_one (x : ℝ) : sigmoidR x < 1 := by
  unfold sigmoidR
  have h := Real.exp_pos (-x)
  rw [div_lt_one (by linarith)]
  linarith

lemma exists_pair_of_mem_zipWith {α β γ : Type} {f : α → β → γ} :
    ∀ {l1 : List α} {l2 : List β} {c : γ}, c ∈ List.zipWith f l1 l2 →
      ∃ a, a ∈ l1 ∧ ∃ b, b ∈ l2 ∧ c = f a b
  | [], _, _, h => by simp at h
  | _ :: _, [], _, h => by simp at h
  | a :: l1, b :: l2, c, h => by
      rcases List.mem_cons.1 h with h | h
      · exact ⟨a, List.mem_cons_self a l1, b, List.mem_cons_self b l2, h⟩
      · rcases exists_pair_of_mem_zipWith h with ⟨x, hx, y, hy, rfl⟩
        exact ⟨x, List.mem_cons_of_mem _ hx, y, List.mem_cons_of_mem _ hy, rfl⟩

/-- C9: every alpha and beta produced by `ActorPPO_Beta.forward` (and hence
every Beta-distribution parameter built in `get_dist`) is strictly greater
than 1, and every entry of `mean(state)` = alpha / (alpha + beta) lies
strictly between 0 and 1. -/
theorem actorPPOBeta_params_valid (m : ActorPPOBeta) (state : List ℝ) :
    m.getDistParams state = m.forward state ∧
    (∀ a, a ∈ (m.forward state).1 → 1 < a) ∧
    (∀ b, b ∈ (m.forward state).2 → 1 < b) ∧
    (∀ mu, mu ∈ m.meanOut state → 0 < mu ∧ mu < 1) := by
  have halpha : ∀ a, a ∈ (m.forward state).1 → 1 < a := by
    intro a ha
    unfold ActorPPOBeta.forward at ha
    rcases List.mem_map.1 ha with ⟨t, _, rfl⟩
    have := softplus_pos t
    linarith
  have hbeta : ∀ b, b ∈ (m.forward state).2 → 1 < b := by
    intro b hb
    unfold ActorPPOBeta.forward at hb
    rcases List.mem_map.1 hb with ⟨t, _, rfl⟩
    have := softplus_pos t
    linarith
  refine ⟨rfl, halpha, hbeta, ?_⟩
  intro mu hmu
  unfold ActorPPOBeta.meanOut at hmu
  rcases exists_pair_of_mem_zipWith hmu with ⟨a, ha, b, hb, rfl⟩
  have ha1 := halpha a ha
  have hb1 := hbeta b hb
  constructor
  · apply div_pos (by linarith) (by linarith)
  · rw [div_lt_one (by linarith)]
    linarith

/-- Concrete network used to instantiate `actorPPOBeta_params_valid`. -/
def betaWitnessNet : ActorPPOBeta :=
  { backbone := fun s => s
    alphaW := [[1]]
    alphaB := [0]
    betaW := [[1]]
    betaB := [0] }

/-- Witness for C9 at a concrete one-neuron network and state `[2]`. -/
theorem actorPPOBeta_params_valid_witness :
    (softplus (dotList [(1 : ℝ)] [2] + 0) + 1.0) ∈ (betaWitnessNet.forward [2]).1 ∧
    1 < softplus (dotList [(1 : ℝ)] [2] + 0) + 1.0 := by
  have hmem : (softplus (dotList [(1 : ℝ)] [2] + 0) + 1.0)
      ∈ (betaWitnessNet.forward [2]).1 := by
    simp [betaWitnessNet, ActorPPOBeta.forward, linearLayer]
  exact ⟨hmem, (actorPPOBeta_params_valid betaWitnessNet [2]).2.1 _ hmem⟩

/-- C10: for polyak in (0, 1], `BaseActor.update_parameters` sets each of
the internal parameters paired by `zip` to `(1 - polyak) * theta +
polyak * theta_net`; at polyak = 1 the hard-update branch (a direct copy)
agrees with this soft-update formula; and the `model` argument's
parameters are left unchanged. -/
theorem updateParameters_polyak (selfP modelP : List ℝ) (p : ℝ)
    (h0 : 0 < p) (h1 : p ≤ 1) :
    (∀ i, i < selfP.length → i < modelP.length →
      (updateParametersPair selfP modelP p).1.getD i 0
        = (1 - p) * selfP.getD i 0 + p * modelP.getD i 0) ∧
    (updateParametersPair selfP modelP p).2 = modelP := by
  refine ⟨?_, rfl⟩
  induction selfP generalizing modelP with
  | nil => intro i hi _; simp at hi
  | cons θ rest ih =>
      intro i hi him
      cases modelP with
      | nil => simp at him
      | cons θn restn =>
          cases i with
          | zero =>
              show (if p = 1 then θn else (1 - p) * θ + p * θn) = (1 - p) * θ + p * θn
              split
              · subst p; ring
              · rfl
          | succ j =>
              have := ih restn j (Nat.lt_of_succ_lt_succ hi) (Nat.lt_of_succ_lt_succ him)
              simpa [updateParametersPair, updateParameters] using this

/-- Witness for C10 at polyak = 1, self parameters `[2]`, model `[5]`. -/
theorem updateParameters_polyak_witness :
    (0 : ℝ) < 1 ∧ (1 : ℝ) ≤ 1 ∧
    (updateParametersPair [2] [5] 1).1.getD 0 0 = (1 - 1) * (2 : ℝ) + 1 * 5 := by
  refine ⟨by norm_num, by norm_num, ?_⟩
  exact (updateParameters_polyak [2] [5] 1 (by norm_num) (by norm_num)).1 0
    (by simp) (by simp)

/-- C4: the style reward of `_get_llc_disc_reward` (and the identical
`demo_style_rewards` expression in `update_net`) equals
`max(1 - 0.25*(1 - logit)^2, 0.0001) * scale` with the least-squares flag
and `-log(max(1 - sigmoid(logit), 0.0001)) * scale` without it; for a
positive discriminator reward scale every style reward is strictly
positive, and at least `0.0001 * scale` in the least-squares case. -/
theorem llc_disc_reward_formula_pos (lsd : Bool) (scale logit : ℝ)
    (logits : List ℝ) (hs : 0 < scale) :
    discRewardPerLogit true scale logit
      = max (1 - 0.25 * (1 - logit) ^ 2) 0.0001 * scale ∧
    discRewardPerLogit false scale logit
      = - Real.log (max (1 - sigmoidR logit) 0.0001) * scale ∧
    0 < discRewardPerLogit lsd scale logit ∧
    0.0001 * scale ≤ discRewardPerLogit true scale logit ∧
    (∀ r, r ∈ discRewards lsd scale logits → 0 < r) := by
  have hpos : ∀ flag x, 0 < discRewardPerLogit flag scale x := by
    intro flag x
    have hls : (0 : ℝ) < max (1 - 0.25 * (1 - x) ^ 2) 0.0001 :=
      lt_of_lt_of_le (by norm_num) (le_max_right _ _)
    have hgt : (0 : ℝ) < max (1 - sigmoidR x) 0.0001 :=
      lt_of_lt_of_le (by norm_num) (le_max_right _ _)
    have hlt : max (1 - sigmoidR x) 0.0001 < 1 := by
      apply max_lt _ (by norm_num)
      have := sigmoidR_pos x
      linarith
    have hlog := Real.log_neg hgt hlt
    cases flag
    · have hb : discRewardPerLogit false scale x
          = - Real.log (max (1 - sigmoidR x) 0.0001) * scale := by
        unfold discRewardPerLogit
        rw [if_neg (by decide)]
      rw [hb]
      exact mul_pos (by linarith) hs
    · have hb : discRewardPerLogit true scale x
          = max (1 - 0.25 * (1 - x) ^ 2) 0.0001 * scale := by
        unfold discRewardPerLogit
        rw [if_pos rfl]
      rw [hb]
      exact mul_pos hls hs
  refine ⟨by unfold discRewardPerLogit; simp,
          by unfold discRewardPerLogit; simp, hpos lsd logit, ?_, ?_⟩
  · unfold discRewardPerLogit
    simp only [if_pos rfl]
    rw [mul_comm 0.0001 scale, mul_comm _ scale]
    exact mul_le_mul_of_nonneg_left (le_max_right _ _) hs.le
  · intro r hr
    unfold discRewards at hr
    rcases List.mem_map.1 hr with ⟨x, _, rfl⟩
    exact hpos lsd x

/-- Witness for C4 at the non-least-squares branch, scale 1, logit 0. -/
theorem llc_disc_reward_formula_pos_witness :
    (0 : ℝ) < 1 ∧ 0 < discRewardPerLogit false 1 0 :=
  ⟨by norm_num, (llc_disc_reward_formula_pos false 1 0 [0] (by norm_num)).2.2.1⟩

/-! ## Source: learning/RofuncRL/agents/mixline/hotu_hlmm_agent.py —
`HOTUHLMMAgent.store_transition` and `HOTUHLMMAgent.update_net` (C2, C3)

The memory is modelled for a single environment: each tensor of shape
(memory_size, num_envs, k) becomes a list over time steps.  Only the
tensors the verified claims consume are kept (states, actions,
next_states, log_prob, omega_actions and truncated are stored by the
source but read by no claim).  Networks and preprocessors are opaque
function fields of the agent. -/

/-- The per-agent data of `HOTUHLMMAgent` consumed by `store_transition`
and the reward/GAE part of `update_net`.  `discLogit` is the agent's own
discriminator composed with `_amp_state_preprocessor`; `llcDiscLogit` the
low-level controller's; `valueFn` is the value network composed with
`_state_preprocessor` and the inverse `_value_preprocessor`.
`rewardsShaper` is `None` as assigned in `__init__`. -/
structure HLMMAgent where
  taskRewardWeight : ℝ
  styleRewardWeight : ℝ
  demoStyleRewardWeight : ℝ
  rewardsShaper : Option (ℝ → ℝ)
  llcLeastSquare : Bool
  llcRewardScale : ℝ
  llcDiscLogit : List ℝ → ℝ
  leastSquare : Bool
  rewardScale : ℝ
  discLogit : List ℝ → ℝ
  valueFn : List ℝ → ℝ
  discount : ℝ
  tdLambda : ℝ

/-- The memory tensors used by the claims, one list entry per stored row. -/
structure HLMMMemory where
  rewards : List ℝ
  terminated : List Bool
  ampStates : List (List ℝ)
  values : List ℝ
  nextValues : List ℝ
  discRewards : List ℝ

/-- The empty memory. -/
def HLMMMemory.empty : HLMMMemory :=
  { rewards := [], terminated := [], ampStates := [], values := [],
    nextValues := [], discRewards := [] }

/-- `HOTUHLMMAgent._get_llc_disc_reward` on one amp state. -/
noncomputable def HLMMAgent.getLLCDiscReward (ag : HLMMAgent) (ampState : List ℝ) : ℝ :=
  discRewardPerLogit ag.llcLeastSquare ag.llcRewardScale (ag.llcDiscLogit ampState)

/-- One call of `HOTUHLMMAgent.store_transition` (single environment):
optionally shapes the reward, computes values and masked next values, and
appends one row to every memory tensor.  `needTerminate` is the
`self.need_terminate` flag at call time. -/
noncomputable def HLMMAgent.storeTransition (ag : HLMMAgent) (needTerminate : Bool)
    (mem : HLMMMemory) (state nextState : List ℝ) (reward : ℝ)
    (terminated : Bool) (ampState : List ℝ) : HLMMMemory :=
  let reward2 := match ag.rewardsShaper with
    | some f => f reward
    | none => reward
  { rewards := mem.rewards ++ [reward2]
    terminated := mem.terminated ++ [terminated]
    ampStates := mem.ampStates ++ [ampState]
    values := mem.values ++ [ag.valueFn state]
    nextValues := mem.nextValues ++ [ag.valueFn nextState * (if needTerminate then 0 else 1)]
    discRewards := mem.discRewards ++ [ag.getLLCDiscReward ampState] }

/-- One transition as handed to `store_transition`. -/
structure TransitionRow where
  state : List ℝ
  nextState : List ℝ
  reward : ℝ
  terminated : Bool
  ampState : List ℝ
  needTerminate : Bool

/-- A sequence of `store_transition` calls starting from a given memory. -/
noncomputable def HLMMAgent.storeAll (ag : HLMMAgent) (mem0 : HLMMMemory)
    (rows : List TransitionRow) : HLMMMemory :=
  rows.foldl (fun mem row => ag.storeTransition row.needTerminate mem row.state
    row.nextState row.reward row.terminated row.ampState) mem0

/-- The `demo_style_rewards` of `update_net`: the agent's own discriminator
applied to the stored amp states, fed through the style-reward formula. -/
noncomputable def HLMMAgent.demoStyleRewards (ag : HLMMAgent) (mem : HLMMMemory) :
    List ℝ :=
  mem.ampStates.map (fun s => discRewardPerLogit ag.leastSquare ag.rewardScale (ag.discLogit s))

/-- The `combined_rewards` of `update_net`:
`task_reward_weight * rewards + style_reward_weight * disc_rewards
+ demo_style_reward_weight * demo_style_rewards`. -/
noncomputable def HLMMAgent.combinedRewards (ag : HLMMAgent) (mem : HLMMMemory) :
    List ℝ :=
  List.zipWith3 (fun r d demo => ag.taskRewardWeight * r + ag.styleRewardWeight * d
      + ag.demoStyleRewardWeight * demo)
    mem.rewards mem.discRewards (ag.demoStyleRewards mem)

/-- The backward GAE loop of `update_net`: the returned pair is (the
`advantages` tensor, the final carried `advantage`), recursing from the
front so that the carried value at row i is the advantage of row i+1
(0 past the last row). -/
noncomputable def gaeAdv (discount tdLambda : ℝ) :
    List ℝ → List ℝ → List ℝ → List Bool → List ℝ × ℝ
  | r :: rs, v :: vs, nv :: nvs, t :: ts =>
      let tail := gaeAdv discount tdLambda rs vs nvs ts
      let a := r - v + discount * (nv + tdLambda * (if t then 0 else 1) * tail.2)
      (a :: tail.1, a)
  | _, _, _, _ => ([], 0)

/-- The raw (pre-normalization) advantages of `update_net`. -/
noncomputable def HLMMAgent.advantagesRaw (ag : HLMMAgent) (mem : HLMMMemory) : List ℝ :=
  (gaeAdv ag.discount ag.tdLambda (ag.combinedRewards mem) mem.values mem.nextValues
    mem.terminated).1

/-- `values_target = advantages + values` of `update_net`. -/
noncomputable def HLMMAgent.returnsOut (ag : HLMMAgent) (mem : HLMMMemory) : List ℝ :=
  List.zipWith (fun a v => a + v) (ag.advantagesRaw mem) mem.values

/-- Modelled from the spec: the `_value_preprocessor` used when writing the
returns back to memory is defined in the base agent classes, which are not
among the sources; the spec does not mention any value scaling, so it is
modelled as the identity (the empty preprocessor default). -/
def valuePreprocessorTrain (x : ℝ) : ℝ := x

/-- The `returns` tensor written back to memory by `update_net`. -/
noncomputable def HLMMAgent.returnsStored (ag : HLMMAgent) (mem : HLMMMemory) : List ℝ :=
  (ag.returnsOut mem).map valuePreprocessorTrain

/-- The normalized `advantages` tensor written back to memory by
`update_net`: `(advantages - advantages.mean()) / (advantages.std() + 1e-8)`. -/
noncomputable def HLMMAgent.advantagesNorm (ag : HLMMAgent) (mem : HLMMMemory) : List ℝ :=
  (ag.advantagesRaw mem).map
    (fun a => (a - meanList (ag.advantagesRaw mem)) / (stdList (ag.advantagesRaw mem) + 1e-8))

/-- The memory tensors all have one row per stored transition. -/
def HLMMMemory.wellFormed (mem : HLMMMemory) : Prop :=
  mem.terminated.length = mem.rewards.length ∧
  mem.ampStates.length = mem.rewards.length ∧
  mem.values.length = mem.rewards.length ∧
  mem.nextValues.length = mem.rewards.length ∧
  mem.discRewards.length = mem.rewards.length

lemma getD_map_lt (f : ℝ → ℝ) (l : List ℝ) (i : Nat) (h : i < l.length) :
    (l.map f).getD i 0 = f (l.getD i 0) := by
  simp only [List.getD_eq_getElem?_getD, List.getElem?_map]
  rw [List.getElem?_eq_getElem h]
  simp

lemma getD_zipWith_lt (f : ℝ → ℝ → ℝ) :
    ∀ (l1 l2 : List ℝ) (i : Nat), i < l1.length → i < l2.length →
      (List.zipWith f l1 l2).getD i 0 = f (l1.getD i 0) (l2.getD i 0)
  | [], _, i, h1, _ => by simp at h1
  | _ :: _, [], i, _, h2 => by simp at h2
  | a :: l1, b :: l2, 0, _, _ => by simp
  | a :: l1, b :: l2, (i + 1), h1, h2 => by
      simpa using getD_zipWith_lt f l1 l2 i (Nat.lt_of_succ_lt_succ h1)
        (Nat.lt_of_succ_lt_succ h2)

lemma length_zipWith3_eq (f : ℝ → ℝ → ℝ → ℝ) :
    ∀ (l1 l2 l3 : List ℝ), l2.length = l1.length → l3.length = l1.length →
      (List.zipWith3 f l1 l2 l3).length = l1.length
  | [], _, _, _, _ => by simp [List.zipWith3]
  | _ :: _, [], _, h2, _ => by simp at h2
  | _ :: _, _ :: _, [], _, h3 => by simp at h3
  | a :: l1, b :: l2, c :: l3, h2, h3 => by
      have := length_zipWith3_eq f l1 l2 l3 (by simpa using h2) (by simpa using h3)
      simpa [List.zipWith3] using this

lemma zipWith3_map_same (f : ℝ → ℝ → ℝ → ℝ) (g1 g2 g3 : TransitionRow → ℝ) :
    ∀ rows : List TransitionRow,
      List.zipWith3 f (rows.map g1) (rows.map g2) (rows.map g3)
        = rows.map (fun row => f (g1 row) (g2 row) (g3 row))
  | [] => by simp [List.zipWith3]
  | row :: rows => by
      simpa [List.zipWith3] using zipWith3_map_same f g1 g2 g3 rows

lemma gaeAdv_snd (γ lam : ℝ) :
    ∀ (rs vs nvs : List ℝ) (ts : List Bool),
      (gaeAdv γ lam rs vs nvs ts).2 = (gaeAdv γ lam rs vs nvs ts).1.getD 0 0
  | r :: rs, v :: vs, nv :: nvs, t :: ts => by simp [gaeAdv]
  | [], _, _, _ => by simp [gaeAdv]
  | _ :: _, [], _, _ => by simp [gaeAdv]
  | _ :: _, _ :: _, [], _ => by simp [gaeAdv]
  | _ :: _, _ :: _, _ :: _, [] => by simp [gaeAdv]

lemma gaeAdv_length (γ lam : ℝ) :
    ∀ (rs vs nvs : List ℝ) (ts : List Bool), vs.length = rs.length →
      nvs.length = rs.length → ts.length = rs.length →
      (gaeAdv γ lam rs vs nvs ts).1.length = rs.length
  | [], _, _, _, _, _, _ => by simp [gaeAdv]
  | _ :: _, [], _, _, hv, _, _ => by simp at hv
  | _ :: _, _ :: _, [], _, _, hnv, _ => by simp at hnv
  | _ :: _, _ :: _, _ :: _, [], _, _, ht => by simp at ht
  | r :: rs, v :: vs, nv :: nvs, t :: ts, hv, hnv, ht => by
      have := gaeAdv_length γ lam rs vs nvs ts (by simpa using hv) (by simpa using hnv)
        (by simpa using ht)
      simpa [gaeAdv] using this

lemma gaeAdv_getD (γ lam : ℝ) :
    ∀ (rs vs nvs : List ℝ) (ts : List Bool), vs.length = rs.length →
      nvs.length = rs.length → ts.length = rs.length →
      ∀ i, i < rs.length →
      (gaeAdv γ lam rs vs nvs ts).1.getD i 0
        = rs.getD i 0 - vs.getD i 0
          + γ * (nvs.getD i 0 + lam * (if ts.getD i false then 0 else 1)
              * (gaeAdv γ lam rs vs nvs ts).1.getD (i + 1) 0)
  | [], _, _, _, _, _, _, i, hi => by simp at hi
  | _ :: _, [], _, _, hv, _, _, _, _ => by simp at hv
  | _ :: _, _ :: _, [], _, _, hnv, _, _, _ => by simp at hnv
  | _ :: _, _ :: _, _ :: _, [], _, _, ht, _, _ => by simp at ht
  | r :: rs, v :: vs, nv :: nvs, t :: ts, hv, hnv, ht, i, hi => by
      cases i with
      | zero =>
          have hsnd := gaeAdv_snd γ lam rs vs nvs ts
          simp only [gaeAdv, List.getD_cons_zero, List.getD_cons_succ]
          rw [← hsnd]
      | succ j =>
          have ih := gaeAdv_getD γ lam rs vs nvs ts (by simpa using hv)
            (by simpa using hnv) (by simpa using ht) j (Nat.lt_of_succ_lt_succ hi)
          simpa only [gaeAdv, List.getD_cons_succ] using ih

/-- C2: in `update_net` the advantages satisfy the backward GAE recursion
(with the advantage past the last row equal to 0 and `not_dones` the
negation of the `terminated` flags), the returns written back equal
advantages + values before normalization, and the stored advantages are
the raw advantages standardized by mean and standard deviation + 1e-8. -/
theorem update_net_gae (ag : HLMMAgent) (mem : HLMMMemory)
    (hwf : mem.wellFormed) :
    (∀ i, i < mem.rewards.length →
      (ag.advantagesRaw mem).getD i 0
        = (ag.combinedRewards mem).getD i 0 - mem.values.getD i 0
          + ag.discount * (mem.nextValues.getD i 0
              + ag.tdLambda * (if mem.terminated.getD i false then 0 else 1)
                * (ag.advantagesRaw mem).getD (i + 1) 0)) ∧
    (∀ i, i < mem.rewards.length →
      (ag.returnsOut mem).getD i 0
        = (ag.advantagesRaw mem).getD i 0 + mem.values.getD i 0) ∧
    ag.returnsStored mem = ag.returnsOut mem ∧
    (∀ i, i < mem.rewards.length →
      (ag.advantagesNorm mem).getD i 0
        = ((ag.advantagesRaw mem).getD i 0 - meanList (ag.advantagesRaw mem))
            / (stdList (ag.advantagesRaw mem) + 1e-8)) := by
  rcases hwf with ⟨ht, ha, hv, hnv, hd⟩
  have hdemo : (ag.demoStyleRewards mem).length = mem.rewards.length := by
    simpa [HLMMAgent.demoStyleRewards] using ha
  have hcr : (ag.combinedRewards mem).length = mem.rewards.length :=
    length_zipWith3_eq _ _ _ _ hd hdemo
  have hadv : (ag.advantagesRaw mem).length = mem.rewards.length := by
    unfold HLMMAgent.advantagesRaw
    rw [gaeAdv_length _ _ _ _ _ _ (by rw [hv, hcr]) (by rw [hnv, hcr])
      (by rw [ht, hcr]), hcr]
  refine ⟨?_, ?_, ?_, ?_⟩
  · intro i hi
    exact gaeAdv_getD ag.discount ag.tdLambda _ _ _ _ (by rw [hv, hcr])
      (by rw [hnv, hcr]) (by rw [ht, hcr]) i (by rw [hcr]; exact hi)
  · intro i hi
    exact getD_zipWith_lt _ _ _ i (by rw [hadv]; exact hi) (by rw [hv]; exact hi)
  · unfold HLMMAgent.returnsStored valuePreprocessorTrain
    simp
  · intro i hi
    exact getD_map_lt _ _ i (by rw [hadv]; exact hi)

/-- Concrete agent used to instantiate the `update_net` theorems. -/
noncomputable def gaeWitnessAgent : HLMMAgent :=
  { taskRewardWeight := 1, styleRewardWeight := 1, demoStyleRewardWeight := 1,
    rewardsShaper := none,
    llcLeastSquare := true, llcRewardScale := 1, llcDiscLogit := fun _ => 1,
    leastSquare := true, rewardScale := 1, discLogit := fun _ => 1,
    valueFn := fun _ => 0, discount := 1, tdLambda := 1 }

/-- Concrete two-row memory used to instantiate `update_net_gae`. -/
def gaeWitnessMem : HLMMMemory :=
  { rewards := [1, 2], terminated := [false, true], ampStates := [[0], [0]],
    values := [3, 4], nextValues := [5, 6], discRewards := [7, 8] }

/-- Witness for C2: the GAE recursion instance at row 0 of a concrete
two-row memory. -/
theorem update_net_gae_witness :
    gaeWitnessMem.wellFormed ∧ 0 < gaeWitnessMem.rewards.length ∧
    (gaeWitnessAgent.advantagesRaw gaeWitnessMem).getD 0 0
      = (gaeWitnessAgent.combinedRewards gaeWitnessMem).getD 0 0
          - gaeWitnessMem.values.getD 0 0
        + gaeWitnessAgent.discount * (gaeWitnessMem.nextValues.getD 0 0
            + gaeWitnessAgent.tdLambda
              * (if gaeWitnessMem.terminated.getD 0 false then 0 else 1)
              * (gaeWitnessAgent.advantagesRaw gaeWitnessMem).getD (0 + 1) 0) := by
  have hwf : gaeWitnessMem.wellFormed := by
    refine ⟨rfl, rfl, rfl, rfl, rfl⟩
  exact ⟨hwf, by simp [gaeWitnessMem],
    (update_net_gae gaeWitnessAgent gaeWitnessMem hwf).1 0 (by simp [gaeWitnessMem])⟩

lemma storeAll_cons (ag : HLMMAgent) (row : TransitionRow) (rows : List TransitionRow)
    (mem0 : HLMMMemory) :
    ag.storeAll mem0 (row :: rows)
      = ag.storeAll (ag.storeTransition row.needTerminate mem0 row.state row.nextState
          row.reward row.terminated row.ampState) rows := rfl

lemma storeAll_fields (ag : HLMMAgent) (hsh : ag.rewardsShaper = none) :
    ∀ (rows : List TransitionRow) (mem0 : HLMMMemory),
      (ag.storeAll mem0 rows).rewards
          = mem0.rewards ++ rows.map (fun row => row.reward) ∧
      (ag.storeAll mem0 rows).discRewards
          = mem0.discRewards ++ rows.map (fun row => ag.getLLCDiscReward row.ampState) ∧
      (ag.storeAll mem0 rows).ampStates
          = mem0.ampStates ++ rows.map (fun row => row.ampState)
  | [], mem0 => by simp [HLMMAgent.storeAll]
  | row :: rows, mem0 => by
      rcases storeAll_fields ag hsh rows (ag.storeTransition row.needTerminate mem0
        row.state row.nextState row.reward row.terminated row.ampState) with ⟨h1, h2, h3⟩
      refine ⟨?_, ?_, ?_⟩
      · rw [storeAll_cons, h1]
        simp [HLMMAgent.storeTransition, hsh]
      · rw [storeAll_cons, h2]
        simp [HLMMAgent.storeTransition, hsh]
      · rw [storeAll_cons, h3]
        simp [HLMMAgent.storeTransition, hsh]

/-- C3: after any sequence of `store_transition` calls (with the
`rewards_shaper` left at its `__init__` value `None`), `update_net` reads
the task rewards and LLC style rewards back from memory unchanged, and its
`combined_rewards` is exactly the weighted sum of the task reward, the
stored LLC discriminator reward, and the demo style reward computed by the
agent's own discriminator on the stored amp states — with no other term. -/
theorem combined_rewards_composition (ag : HLMMAgent) (rows : List TransitionRow)
    (hsh : ag.rewardsShaper = none) :
    (ag.storeAll HLMMMemory.empty rows).rewards = rows.map (fun row => row.reward) ∧
    (ag.storeAll HLMMMemory.empty rows).discRewards
      = rows.map (fun row => ag.getLLCDiscReward row.ampState) ∧
    ag.combinedRewards (ag.storeAll HLMMMemory.empty rows)
      = rows.map (fun row =>
          ag.taskRewardWeight * row.reward
          + ag.styleRewardWeight * ag.getLLCDiscReward row.ampState
          + ag.demoStyleRewardWeight
            * discRewardPerLogit ag.leastSquare ag.rewardScale
                (ag.discLogit row.ampState)) := by
  have h1 : (ag.storeAll HLMMMemory.empty rows).rewards
      = rows.map (fun row => row.reward) := by
    simpa using (storeAll_fields ag hsh rows HLMMMemory.empty).1
  have h2 : (ag.storeAll HLMMMemory.empty rows).discRewards
      = rows.map (fun row => ag.getLLCDiscReward row.ampState) := by
    simpa using (storeAll_fields ag hsh rows HLMMMemory.empty).2.1
  have h3 : (ag.storeAll HLMMMemory.empty rows).ampStates
      = rows.map (fun row => row.ampState) := by
    simpa using (storeAll_fields ag hsh rows HLMMMemory.empty).2.2
  refine ⟨h1, h2, ?_⟩
  unfold HLMMAgent.combinedRewards HLMMAgent.demoStyleRewards
  rw [h1, h2, h3, List.map_map]
  exact zipWith3_map_same _ _ _ _ rows

/-! ## Source: learning/RofuncRL/agents/mixline/hotu_hlmm_agent.py —
`HOTUHLMMAgent.act` and `HOTUHLMMAgent._get_llc_action` (C1)

Single-environment model: one row of the batch.  The high-level policy,
the state preprocessor and the low-level controller's `act` are opaque
function fields.  `states.take (states.length - taskRelatedStateSize)`
models the slice `states[:, :states.shape[1] - task_related_state_size]`
(they agree whenever the task-related size does not exceed the state
dimension, which the constructor's `observation_space.shape[0] -
task_related_state_size` enforces). -/

/-- `torch.nn.functional.normalize` along the last dimension with the
default p = 2 and eps = 1e-12: division by `max(norm, eps)`. -/
noncomputable def fNormalize (v : List ℝ) : List ℝ :=
  v.map (fun x => x / max (l2norm v) 1e-12)

/-- The pieces of `HOTUHLMMAgent` consumed by `act`. -/
structure HLMMActCtx where
  policy : List ℝ → List ℝ × ℝ
  statePre : List ℝ → List ℝ
  llcAct : List ℝ → List ℝ → List ℝ
  taskRelatedStateSize : Nat
  currentStates : Option (List ℝ)

/-- `HOTUHLMMAgent._get_llc_action`: keeps the task-agnostic prefix of the
states and hands the L2-normalized latent to the low-level controller. -/
noncomputable def HLMMActCtx.getLLCAction (c : HLMMActCtx) (states omega : List ℝ) :
    List ℝ :=
  c.llcAct (states.take (states.length - c.taskRelatedStateSize)) (fNormalize omega)

/-- The latent actually passed to the low-level controller by `act`. -/
noncomputable def HLMMActCtx.llcLatent (c : HLMMActCtx) (states : List ℝ) : List ℝ :=
  fNormalize (c.policy (c.statePre (c.currentStates.getD states))).1

/-- `HOTUHLMMAgent.act`: overrides the argument by `_current_states` when
that is set, samples (omega, log-prob) from the policy on the preprocessed
states, and returns the low-level controller's primitive actions together
with that log-prob. -/
noncomputable def HLMMActCtx.act (c : HLMMActCtx) (states : List ℝ) : List ℝ × ℝ :=
  let s := c.currentStates.getD states
  let pr := c.policy (c.statePre s)
  (c.getLLCAction s pr.1, pr.2)

lemma normSq_map_div (v : List ℝ) (c : ℝ) :
    normSq (v.map (fun x => x / c)) = normSq v / c ^ 2 := by
  induction v with
  | nil => simp [normSq]
  | cons x v ih =>
      simp only [normSq, List.map_cons, List.sum_cons] at ih ⊢
      rw [ih, div_pow, add_div]

lemma l2norm_map_div (v : List ℝ) (c : ℝ) (hc : 0 ≤ c) :
    l2norm (v.map (fun x => x / c)) = l2norm v / c := by
  unfold l2norm
  rw [normSq_map_div, show (c : ℝ) ^ 2 = c * c by ring,
    Real.sqrt_div (normSq_nonneg v), Real.sqrt_mul_self hc]

lemma fNormalize_unit (v : List ℝ) (h : 1e-12 ≤ l2norm v) :
    l2norm (fNormalize v) = 1 := by
  have hpos : 0 < l2norm v := lt_of_lt_of_le (by norm_num) h
  unfold fNormalize
  rw [max_eq_left h, l2norm_map_div v _ hpos.le, div_self (ne_of_gt hpos)]

/-- Context whose high-level policy emits the zero latent. -/
def zeroLatentCtx : HLMMActCtx :=
  { policy := fun _ => ([0, 0], 0), statePre := fun s => s,
    llcAct := fun _ z => z, taskRelatedStateSize := 0, currentStates := none }

/-- C1 counterexample: when the sampled latent is the zero vector,
`F.normalize` (which divides by `max(norm, 1e-12)`) passes the zero vector
to the low-level controller, whose norm is 0, not 1 — refuting "the latent
passed to the low-level controller always has unit norm". -/
theorem hlmm_act_latent_not_unit : l2norm (zeroLatentCtx.llcLatent [1]) ≠ 1 := by
  have hz : zeroLatentCtx.llcLatent [1] = [0, 0] := by
    simp [zeroLatentCtx, HLMMActCtx.llcLatent, fNormalize]
  rw [hz]
  have : l2norm [(0 : ℝ), 0] = 0 := by
    simp [l2norm, normSq]
  rw [this]
  norm_num

/-- C1 (amended): `act` returns the low-level controller's actions on the
task-agnostic state prefix and the normalized latent, paired with the
policy's log-probability; and whenever the sampled latent's norm is at
least the `F.normalize` eps of 1e-12 (in particular for any latent of norm
at least eps), the latent passed to the low-level controller has unit
Euclidean norm. -/
theorem hlmm_act_composition (c : HLMMActCtx) (states : List ℝ)
    (hnorm : 1e-12 ≤ l2norm (c.policy (c.statePre (c.currentStates.getD states))).1) :
    c.act states
      = (c.llcAct ((c.currentStates.getD states).take
            ((c.currentStates.getD states).length - c.taskRelatedStateSize))
          (c.llcLatent states),
         (c.policy (c.statePre (c.currentStates.getD states))).2) ∧
    l2norm (c.llcLatent states) = 1 := by
  refine ⟨rfl, ?_⟩
  exact fNormalize_unit _ hnorm

/-- Context whose high-level policy emits the latent `[1]`. -/
def unitLatentCtx : HLMMActCtx :=
  { policy := fun _ => ([1], 0), statePre := fun s => s,
    llcAct := fun _ z => z, taskRelatedStateSize := 0, currentStates := none }

/-- Witness for the amended C1 at a policy emitting the unit latent `[1]`. -/
theorem hlmm_act_composition_witness :
    1e-12 ≤ l2norm (unitLatentCtx.policy
        (unitLatentCtx.statePre (unitLatentCtx.currentStates.getD [5]))).1 ∧
    l2norm (unitLatentCtx.llcLatent [5]) = 1 := by
  have h1 : l2norm [(1 : ℝ)] = 1 := by
    simp [l2norm, normSq]
  have hn : 1e-12 ≤ l2norm (unitLatentCtx.policy
      (unitLatentCtx.statePre (unitLatentCtx.currentStates.getD [5]))).1 := by
    show (1e-12 : ℝ) ≤ l2norm [(1 : ℝ)]
    rw [h1]; norm_num
  exact ⟨hn, (hlmm_act_composition unitLatentCtx [5] hn).2⟩

/-! ## Geometry layer shared by the poselib-based claims (C5, C6, C7)

Vectors and quaternions are in the xyzw layout used throughout poselib.
The quaternion operations themselves (`quat_mul`, `quat_rotate`,
`quat_from_angle_axis`, `quat_identity`) live in
`utils/datalab/poselib/poselib/core/rotation3d.py`, which is not among the
sources, so they are modelled from the spec's description of the pipeline
as quaternion-based retargeting, with the standard meanings the claims
themselves spell out (rotation about an axis by an angle, quaternion
product, identity quaternion). -/

/-- A 3-vector. -/
structure Vec3 where
  x : ℝ
  y : ℝ
  z : ℝ

/-- The zero vector. -/
def vzero : Vec3 := ⟨0, 0, 0⟩

/-- Componentwise sum. -/
def vadd (a b : Vec3) : Vec3 := ⟨a.x + b.x, a.y + b.y, a.z + b.z⟩

/-- Componentwise difference. -/
def vsub (a b : Vec3) : Vec3 := ⟨a.x - b.x, a.y - b.y, a.z - b.z⟩

/-- Scalar multiple. -/
def vscale (c : ℝ) (v : Vec3) : Vec3 := ⟨c * v.x, c * v.y, c * v.z⟩

/-- Euclidean inner product. -/
def vdot (a b : Vec3) : ℝ := a.x * b.x + a.y * b.y + a.z * b.z

/-- Cross product. -/
def vcross (a b : Vec3) : Vec3 :=
  ⟨a.y * b.z - a.z * b.y, a.z * b.x - a.x * b.z, a.x * b.y - a.y * b.x⟩

/-- Euclidean norm of a 3-vector (`torch.norm` over the last axis). -/
noncomputable def vnorm (v : Vec3) : ℝ := Real.sqrt (vdot v v)

/-- Division of a vector by its own norm, `v / torch.norm(v)`. -/
noncomputable def vnormalize (v : Vec3) : Vec3 :=
  ⟨v.x / vnorm v, v.y / vnorm v, v.z / vnorm v⟩

/-- A quaternion in xyzw component order. -/
structure Quat where
  x : ℝ
  y : ℝ
  z : ℝ
  w : ℝ

/-- Modelled from the spec: poselib's `quat_identity` — the identity
quaternion (0, 0, 0, 1) in xyzw order. -/
def quatIdentity : Quat := ⟨0, 0, 0, 1⟩

/-- Modelled from the spec: poselib's `quat_mul` — the Hamilton product in
xyzw layout. -/
def quatMul (a b : Quat) : Quat :=
  ⟨a.w * b.x + a.x * b.w + a.y * b.z - a.z * b.y,
   a.w * b.y - a.x * b.z + a.y * b.w + a.z * b.x,
   a.w * b.z + a.x * b.y - a.y * b.x + a.z * b.w,
   a.w * b.w - a.x * b.x - a.y * b.y - a.z * b.z⟩

/-- The vector part of a quaternion. -/
def quatVec (q : Quat) : Vec3 := ⟨q.x, q.y, q.z⟩

/-- Modelled from the spec: poselib's `quat_rotate` — rotation of a vector
by a unit quaternion, `v + 2 w (q x v) + 2 q x (q x v)` with `q` the vector
part. -/
def quatRotate (q : Quat) (v : Vec3) : Vec3 :=
  vadd v (vadd (vscale (2 * q.w) (vcross (quatVec q) v))
    (vscale 2 (vcross (quatVec q) (vcross (quatVec q) v))))

/-- Modelled from the spec: poselib's `quat_from_angle_axis` in radians —
the quaternion for a rotation about the given (unit) axis by the given
angle: `(sin(angle/2) * axis, cos(angle/2))` in xyzw order. -/
noncomputable def quatFromAngleAxis (angle : ℝ) (axis : Vec3) : Quat :=
  ⟨Real.sin (angle / 2) * axis.x, Real.sin (angle / 2) * axis.y,
   Real.sin (angle / 2) * axis.z, Real.cos (angle / 2)⟩

/-- `quat_from_angle_axis` with `degree=True`: the angle is converted from
degrees to radians first. -/
noncomputable def quatFromAngleAxisDeg (angle : ℝ) (axis : Vec3) : Quat :=
  quatFromAngleAxis (angle * Real.pi / 180) axis

/-- A skeleton tree: node names in index order, parent indices and local
translations.  Parents precede children (poselib's topological node
order); the root's parent entry is unused. -/
structure SkeletonTreeM where
  nodeNames : List String
  parents : List Nat
  localTranslation : List Vec3

/-- `skeleton_tree._node_indices[name]` / `skeleton.index(name)`. -/
def SkeletonTreeM.nodeIndex (t : SkeletonTreeM) (name : String) : Nat :=
  t.nodeNames.indexOf name

/-- A skeleton motion: tree, per-frame local rotations (frames x joints),
per-frame root translations, and fps.  The global translation is derived
by forward kinematics (`fkPos`), as poselib recomputes it from any
(rotation, root translation) state. -/
structure MotionM where
  tree : SkeletonTreeM
  localRotation : List (List Quat)
  rootTranslation : List Vec3
  fps : ℕ

/-- Modelled from the spec: forward kinematics of poselib's
`SkeletonState` (not among the sources).  The root carries the root
translation and its own local rotation; each further node adds its
parent-rotated local translation to the parent position and composes the
rotations.  Parent indices are topologically ordered (the parent of node
j+1 is at most j); the `min` clamp only makes the recursion well-founded
and is the identity on such trees. -/
noncomputable def fkPos (t : SkeletonTreeM) (rots : List Quat) (root : Vec3) :
    Nat → Vec3 × Quat
  | 0 => (root, rots.getD 0 quatIdentity)
  | j + 1 =>
      let p := min (t.parents.getD (j + 1) 0) j
      let pr := fkPos t rots root p
      (vadd pr.1 (quatRotate pr.2 (t.localTranslation.getD (j + 1) vzero)),
       quatMul pr.2 (rots.getD (j + 1) quatIdentity))
  termination_by j => j
  decreasing_by exact Nat.lt_succ_of_le (min_le_right _ _)

/-- Global position of joint `j` in frame `f` of a motion. -/
noncomputable def MotionM.globalPos (m : MotionM) (f j : Nat) : Vec3 :=
  (fkPos m.tree (m.localRotation.getD f []) (m.rootTranslation.getD f vzero) j).1

lemma vadd_right_comm (a b c : Vec3) : vadd (vadd a b) c = vadd (vadd a c) b := by
  simp only [vadd, Vec3.mk.injEq]
  refine ⟨by ring, by ring, by ring⟩

/-- Shifting the root translation shifts every joint's global position by
the same vector and leaves global rotations unchanged. -/
lemma fkPos_shift (t : SkeletonTreeM) (rots : List Quat) (root w : Vec3) :
    ∀ j, fkPos t rots (vadd root w) j
      = (vadd (fkPos t rots root j).1 w, (fkPos t rots root j).2) := by
  intro j
  induction j using Nat.strong_induction_on with
  | _ j ih =>
      match j with
      | 0 => simp [fkPos]
      | j + 1 =>
          have hp := ih (min (t.parents.getD (j + 1) 0) j)
            (Nat.lt_succ_of_le (min_le_right _ _))
          simp only [fkPos]
          rw [hp]
          exact Prod.ext (vadd_right_comm _ _ _) rfl

/-! ## Source: utils/datalab/poselib/robot_utils/Walker/generate_walker_tpose.py —
`get_tpose` (C7)

`SkeletonState.zero_pose_wo_qbhand` is not among the sources; following
the claim's own description, the zero pose is modelled as the identity
local rotation at every joint with zero root translation.  Saving to
`save_path` is I/O: the value saved is the returned (rotations, root
translation) state. -/

/-- Modelled from the spec: the zero-rotation pose of a skeleton tree —
identity local rotations, zero root translation. -/
def zeroPoseRotations (t : SkeletonTreeM) : List Quat :=
  List.replicate t.nodeNames.length quatIdentity

/-- `get_tpose`: builds the zero pose, then multiplies the local rotations
of `left_limb_l2` and `right_limb_l2` (in that order, in place) by a -90
degree rotation about (0, 1, 0) on the left. -/
noncomputable def getTpose (t : SkeletonTreeM) : List Quat × Vec3 :=
  let localRotation := zeroPoseRotations t
  let q := quatFromAngleAxisDeg (-90) ⟨0, 1, 0⟩
  let li := t.nodeIndex "left_limb_l2"
  let lr1 := localRotation.set li (quatMul q (localRotation.getD li quatIdentity))
  let ri := t.nodeIndex "right_limb_l2"
  let lr2 := lr1.set ri (quatMul q (lr1.getD ri quatIdentity))
  (lr2, vzero)

lemma getD_set_self {α : Type} (l : List α) (i : Nat) (a d : α) (h : i < l.length) :
    (l.set i a).getD i d = a := by
  simp [List.getD_eq_getElem?_getD, List.getElem?_set_self, h]

lemma getD_set_ne {α : Type} (l : List α) (i j : Nat) (a d : α) (h : j ≠ i) :
    (l.set i a).getD j d = l.getD j d := by
  simp [List.getD_eq_getElem?_getD, List.getElem?_set_ne (Ne.symm h)]

/-- C7: `get_tpose` replaces the local rotations of exactly the joints
named `left_limb_l2` and `right_limb_l2` by the product of a -90 degree
rotation about (0,1,0) with their zero-pose local rotation, leaves every
other joint's local rotation and the root translation at the zero pose,
and the resulting state is what is saved. -/
theorem get_tpose_rotations (t : SkeletonTreeM)
    (hli : t.nodeIndex "left_limb_l2" < t.nodeNames.length)
    (hri : t.nodeIndex "right_limb_l2" < t.nodeNames.length)
    (hne : t.nodeIndex "left_limb_l2" ≠ t.nodeIndex "right_limb_l2") :
    (getTpose t).1.getD (t.nodeIndex "left_limb_l2") quatIdentity
      = quatMul (quatFromAngleAxisDeg (-90) ⟨0, 1, 0⟩)
          ((zeroPoseRotations t).getD (t.nodeIndex "left_limb_l2") quatIdentity) ∧
    (getTpose t).1.getD (t.nodeIndex "right_limb_l2") quatIdentity
      = quatMul (quatFromAngleAxisDeg (-90) ⟨0, 1, 0⟩)
          ((zeroPoseRotations t).getD (t.nodeIndex "right_limb_l2") quatIdentity) ∧
    (∀ j, j ≠ t.nodeIndex "left_limb_l2" → j ≠ t.nodeIndex "right_limb_l2" →
      (getTpose t).1.getD j quatIdentity
        = (zeroPoseRotations t).getD j quatIdentity) ∧
    (getTpose t).2 = vzero ∧
    (getTpose t).1.length = (zeroPoseRotations t).length := by
  have hlen1 : ((zeroPoseRotations t).set (t.nodeIndex "left_limb_l2")
      (quatMul (quatFromAngleAxisDeg (-90) ⟨0, 1, 0⟩)
        ((zeroPoseRotations t).getD (t.nodeIndex "left_limb_l2") quatIdentity))).length
      = t.nodeNames.length := by
    simp [zeroPoseRotations]
  refine ⟨?_, ?_, ?_, rfl, by simp [getTpose]⟩
  · show (List.set _ (t.nodeIndex "right_limb_l2") _).getD
        (t.nodeIndex "left_limb_l2") quatIdentity = _
    rw [getD_set_ne _ _ _ _ _ hne]
    rw [getD_set_self _ _ _ _ (by rw [show ((zeroPoseRotations t).length)
      = t.nodeNames.length by simp [zeroPoseRotations]]; exact hli)]
  · show (List.set _ (t.nodeIndex "right_limb_l2") _).getD
        (t.nodeIndex "right_limb_l2") quatIdentity = _
    rw [getD_set_self _ _ _ _ (by rw [hlen1]; exact hri)]
    rw [getD_set_ne _ _ _ _ _ (Ne.symm hne)]
  · intro j hjl hjr
    show (List.set _ (t.nodeIndex "right_limb_l2") _).getD j quatIdentity = _
    rw [getD_set_ne _ _ _ _ _ hjr, getD_set_ne _ _ _ _ _ hjl]

/-- Concrete three-joint skeleton for the C7 witness. -/
def tposeWitnessTree : SkeletonTreeM :=
  { nodeNames := ["pelvis", "left_limb_l2", "right_limb_l2"],
    parents := [0, 0, 0],
    localTranslation := [vzero, vzero, vzero] }

/-- Witness for C7 on a concrete three-joint skeleton. -/
theorem get_tpose_rotations_witness :
    tposeWitnessTree.nodeIndex "left_limb_l2" < tposeWitnessTree.nodeNames.length ∧
    tposeWitnessTree.nodeIndex "right_limb_l2" < tposeWitnessTree.nodeNames.length ∧
    tposeWitnessTree.nodeIndex "left_limb_l2"
      ≠ tposeWitnessTree.nodeIndex "right_limb_l2" ∧
    (getTpose tposeWitnessTree).2 = vzero := by
  have h1 : tposeWitnessTree.nodeIndex "left_limb_l2" = 1 := by rfl
  have h2 : tposeWitnessTree.nodeIndex "right_limb_l2" = 2 := by rfl
  refine ⟨by rw [h1]; simp [tposeWitnessTree], by rw [h2]; simp [tposeWitnessTree],
    by rw [h1, h2]; simp, ?_⟩
  exact (get_tpose_rotations tposeWitnessTree
    (by rw [h1]; simp [tposeWitnessTree]) (by rw [h2]; simp [tposeWitnessTree])
    (by rw [h1, h2]; simp)).2.2.2.1

/-! ## Source: utils/datalab/poselib/xsens_fbx_to_amp_npy.py — `_project_joints` (C5)

The four limb blocks of `_project_joints` share one shape; the embedding
factors them through `limbBendTheta` (the `*_elbow_theta` / `*_knee_theta`
computation) and `limbTwistQuat` (the `*_arm_q` / `*_leg_q` computation),
with the per-limb differences — the sign of the bend angle and the
direction of the y-component test — passed explicitly.  The ten in-place
assignments into the cloned `new_local_rotation` become a chain of
`List.set` in the source's order. -/

/-- The bend angle of a two-segment limb as computed in `_project_joints`:
with `delta0 = upperPos - midPos` and `delta1 = endPos - midPos`, both
normalized, it is `acos(clamp(-(delta0 . delta1), -1.0, 1.0))`. -/
noncomputable def limbBendTheta (upperPos midPos endPos : Vec3) : ℝ :=
  Real.arccos (clampR
    (- vdot (vnormalize (vsub upperPos midPos)) (vnormalize (vsub endPos midPos)))
    (-1) 1)

/-- The compensating twist of `_project_joints`: the (normalized) child
local direction is rotated by the original mid-joint local rotation
(`dir0`) and by the new bend quaternion (`dir1`); the angle is
`acos(clamp(dir0 . dir1, -1, 1))` signed by the y-component test of `dir0`
(`<= 0` keeps the angle for arms, `>= 0` for legs), and the result is a
rotation about the child local direction. -/
noncomputable def limbTwistQuat (midRot bendQ : Quat) (localDir : Vec3) (armSide : Bool) :
    Quat :=
  let dir0 := quatRotate midRot localDir
  let dir1 := quatRotate bendQ localDir
  let theta0 := Real.arccos (clampR (vdot dir0 dir1) (-1) 1)
  let theta := if armSide then (if dir0.y ≤ 0 then theta0 else - theta0)
               else (if dir0.y ≥ 0 then theta0 else - theta0)
  quatFromAngleAxis theta localDir

/-- The ten joints whose local rotations `_project_joints` assigns, in the
source's assignment order. -/
def projSetIds (t : SkeletonTreeM) : List Nat :=
  [t.nodeIndex "right_upper_arm", t.nodeIndex "right_lower_arm",
   t.nodeIndex "left_upper_arm", t.nodeIndex "left_lower_arm",
   t.nodeIndex "right_thigh", t.nodeIndex "right_shin",
   t.nodeIndex "left_thigh", t.nodeIndex "left_shin",
   t.nodeIndex "left_hand", t.nodeIndex "right_hand"]

/-- The `right_elbow_q` of `_project_joints`: rotation about (0,1,0) by
minus the absolute bend angle of the right arm. -/
noncomputable def rightElbowQF (t : SkeletonTreeM) (rots : List Quat) (root : Vec3) :
    Quat :=
  quatFromAngleAxis (- abs (limbBendTheta
    (fkPos t rots root (t.nodeIndex "right_upper_arm")).1
    (fkPos t rots root (t.nodeIndex "right_lower_arm")).1
    (fkPos t rots root (t.nodeIndex "right_hand")).1)) ⟨0, 1, 0⟩

/-- The `right_shoulder_rot` of `_project_joints`: the original shoulder
rotation times the compensating twist about the normalized local
translation of the right hand. -/
noncomputable def rightShoulderRotF (t : SkeletonTreeM) (rots : List Quat) (root : Vec3) :
    Quat :=
  quatMul (rots.getD (t.nodeIndex "right_upper_arm") quatIdentity)
    (limbTwistQuat (rots.getD (t.nodeIndex "right_lower_arm") quatIdentity)
      (rightElbowQF t rots root)
      (vnormalize (t.localTranslation.getD (t.nodeIndex "right_hand") vzero)) true)

/-- The `left_elbow_q` of `_project_joints`. -/
noncomputable def leftElbowQF (t : SkeletonTreeM) (rots : List Quat) (root : Vec3) :
    Quat :=
  quatFromAngleAxis (- abs (limbBendTheta
    (fkPos t rots root (t.nodeIndex "left_upper_arm")).1
    (fkPos t rots root (t.nodeIndex "left_lower_arm")).1
    (fkPos t rots root (t.nodeIndex "left_hand")).1)) ⟨0, 1, 0⟩

/-- The `left_shoulder_rot` of `_project_joints`. -/
noncomputable def leftShoulderRotF (t : SkeletonTreeM) (rots : List Quat) (root : Vec3) :
    Quat :=
  quatMul (rots.getD (t.nodeIndex "left_upper_arm") quatIdentity)
    (limbTwistQuat (rots.getD (t.nodeIndex "left_lower_arm") quatIdentity)
      (leftElbowQF t rots root)
      (vnormalize (t.localTranslation.getD (t.nodeIndex "left_hand") vzero)) true)

/-- The `right_knee_q` of `_project_joints`: rotation about (0,1,0) by
plus the absolute bend angle of the right leg. -/
noncomputable def rightKneeQF (t : SkeletonTreeM) (rots : List Quat) (root : Vec3) :
    Quat :=
  quatFromAngleAxis (abs (limbBendTheta
    (fkPos t rots root (t.nodeIndex "right_thigh")).1
    (fkPos t rots root (t.nodeIndex "right_shin")).1
    (fkPos t rots root (t.nodeIndex "right_foot")).1)) ⟨0, 1, 0⟩

/-- The `right_hip_rot` of `_project_joints`. -/
noncomputable def rightHipRotF (t : SkeletonTreeM) (rots : List Quat) (root : Vec3) :
    Quat :=
  quatMul (rots.getD (t.nodeIndex "right_thigh") quatIdentity)
    (limbTwistQuat (rots.getD (t.nodeIndex "right_shin") quatIdentity)
      (rightKneeQF t rots root)
      (vnormalize (t.localTranslation.getD (t.nodeIndex "right_foot") vzero)) false)

/-- The `left_knee_q` of `_project_joints`. -/
noncomputable def leftKneeQF (t : SkeletonTreeM) (rots : List Quat) (root : Vec3) :
    Quat :=
  quatFromAngleAxis (abs (limbBendTheta
    (fkPos t rots root (t.nodeIndex "left_thigh")).1
    (fkPos t rots root (t.nodeIndex "left_shin")).1
    (fkPos t rots root (t.nodeIndex "left_foot")).1)) ⟨0, 1, 0⟩

/-- The `left_hip_rot` of `_project_joints`. -/
noncomputable def leftHipRotF (t : SkeletonTreeM) (rots : List Quat) (root : Vec3) :
    Quat :=
  quatMul (rots.getD (t.nodeIndex "left_thigh") quatIdentity)
    (limbTwistQuat (rots.getD (t.nodeIndex "left_shin") quatIdentity)
      (leftKneeQF t rots root)
      (vnormalize (t.localTranslation.getD (t.nodeIndex "left_foot") vzero)) false)

/-- One frame of `_project_joints`: the ten in-place assignments into the
cloned `new_local_rotation`, in source order. -/
noncomputable def projectFrame (t : SkeletonTreeM) (rots : List Quat) (root : Vec3) :
    List Quat :=
  ((((((((((rots.set (t.nodeIndex "right_upper_arm") (rightShoulderRotF t rots root)).set
    (t.nodeIndex "right_lower_arm") (rightElbowQF t rots root)).set
    (t.nodeIndex "left_upper_arm") (leftShoulderRotF t rots root)).set
    (t.nodeIndex "left_lower_arm") (leftElbowQF t rots root)).set
    (t.nodeIndex "right_thigh") (rightHipRotF t rots root)).set
    (t.nodeIndex "right_shin") (rightKneeQF t rots root)).set
    (t.nodeIndex "left_thigh") (leftHipRotF t rots root)).set
    (t.nodeIndex "left_shin") (leftKneeQF t rots root)).set
    (t.nodeIndex "left_hand") quatIdentity).set
    (t.nodeIndex "right_hand") quatIdentity)

/-- `_project_joints`: new motion from the per-frame projected rotations,
with the skeleton tree, root translations and fps unchanged. -/
noncomputable def projectJoints (m : MotionM) : MotionM :=
  { tree := m.tree
    localRotation := List.zipWith (fun rots root => projectFrame m.tree rots root)
      m.localRotation m.rootTranslation
    rootTranslation := m.rootTranslation
    fps := m.fps }

/-- The elbow/knee bend angle as the claim words it: arccos of the clamped
dot product of the normalized segment directions upper-to-mid
(`midPos - upperPos`) and end-to-mid (`midPos - endPos`).  This definition
follows the claim's sentence, for comparison with `limbBendTheta` as
translated from the source. -/
noncomputable def claimElbowTheta (upperPos midPos endPos : Vec3) : ℝ :=
  Real.arccos (clampR
    (vdot (vnormalize (vsub midPos upperPos)) (vnormalize (vsub midPos endPos)))
    (-1) 1)

lemma getD_zipWith_poly {α β γ : Type} (f : α → β → γ) (d1 : α) (d2 : β) (d3 : γ) :
    ∀ (l1 : List α) (l2 : List β) (i : Nat), i < l1.length → i < l2.length →
      (List.zipWith f l1 l2).getD i d3 = f (l1.getD i d1) (l2.getD i d2)
  | [], _, i, h1, _ => by simp at h1
  | _ :: _, [], i, _, h2 => by simp at h2
  | a :: l1, b :: l2, 0, _, _ => by simp
  | a :: l1, b :: l2, (i + 1), h1, h2 => by
      simpa using getD_zipWith_poly f d1 d2 d3 l1 l2 i (Nat.lt_of_succ_lt_succ h1)
        (Nat.lt_of_succ_lt_succ h2)

lemma projectFrame_getD (t : SkeletonTreeM) (rots : List Quat) (root : Vec3)
    (hnodup : (projSetIds t).Nodup)
    (hbounds : ∀ id, id ∈ projSetIds t → id < rots.length) :
    (projectFrame t rots root).getD (t.nodeIndex "right_upper_arm") quatIdentity
      = rightShoulderRotF t rots root ∧
    (projectFrame t rots root).getD (t.nodeIndex "right_lower_arm") quatIdentity
      = rightElbowQF t rots root ∧
    (projectFrame t rots root).getD (t.nodeIndex "left_upper_arm") quatIdentity
      = leftShoulderRotF t rots root ∧
    (projectFrame t rots root).getD (t.nodeIndex "left_lower_arm") quatIdentity
      = leftElbowQF t rots root ∧
    (projectFrame t rots root).getD (t.nodeIndex "right_thigh") quatIdentity
      = rightHipRotF t rots root ∧
    (projectFrame t rots root).getD (t.nodeIndex "right_shin") quatIdentity
      = rightKneeQF t rots root ∧
    (projectFrame t rots root).getD (t.nodeIndex "left_thigh") quatIdentity
      = leftHipRotF t rots root ∧
    (projectFrame t rots root).getD (t.nodeIndex "left_shin") quatIdentity
      = leftKneeQF t rots root ∧
    (projectFrame t rots root).getD (t.nodeIndex "left_hand") quatIdentity
      = quatIdentity ∧
    (projectFrame t rots root).getD (t.nodeIndex "right_hand") quatIdentity
      = quatIdentity ∧
    (∀ j, j ∉ projSetIds t →
      (projectFrame t rots root).getD j quatIdentity = rots.getD j quatIdentity) ∧
    (projectFrame t rots root).length = rots.length := by
  have bRua : t.nodeIndex "right_upper_arm" < rots.length :=
    hbounds _ (by simp [projSetIds])
  have bRla : t.nodeIndex "right_lower_arm" < rots.length :=
    hbounds _ (by simp [projSetIds])
  have bLua : t.nodeIndex "left_upper_arm" < rots.length :=
    hbounds _ (by simp [projSetIds])
  have bLla : t.nodeIndex "left_lower_arm" < rots.length :=
    hbounds _ (by simp [projSetIds])
  have bRth : t.nodeIndex "right_thigh" < rots.length :=
    hbounds _ (by simp [projSetIds])
  have bRsh : t.nodeIndex "right_shin" < rots.length :=
    hbounds _ (by simp [projSetIds])
  have bLth : t.nodeIndex "left_thigh" < rots.length :=
    hbounds _ (by simp [projSetIds])
  have bLsh : t.nodeIndex "left_shin" < rots.length :=
    hbounds _ (by simp [projSetIds])
  have bLhand : t.nodeIndex "left_hand" < rots.length :=
    hbounds _ (by simp [projSetIds])
  have bRhand : t.nodeIndex "right_hand" < rots.length :=
    hbounds _ (by simp [projSetIds])
  simp only [projSetIds] at hnodup
  rcases List.pairwise_cons.1 hnodup with ⟨hRua, hnodup2⟩
  rcases List.pairwise_cons.1 hnodup2 with ⟨hRla, hnodup3⟩
  rcases List.pairwise_cons.1 hnodup3 with ⟨hLua, hnodup4⟩
  rcases List.pairwise_cons.1 hnodup4 with ⟨hLla, hnodup5⟩
  rcases List.pairwise_cons.1 hnodup5 with ⟨hRth, hnodup6⟩
  rcases List.pairwise_cons.1 hnodup6 with ⟨hRsh, hnodup7⟩
  rcases List.pairwise_cons.1 hnodup7 with ⟨hLth, hnodup8⟩
  rcases List.pairwise_cons.1 hnodup8 with ⟨hLsh, hnodup9⟩
  rcases List.pairwise_cons.1 hnodup9 with ⟨hLhand, _⟩
  refine ⟨?_, ?_, ?_, ?_, ?_, ?_, ?_, ?_, ?_, ?_, ?_, ?_⟩
  · unfold projectFrame
    rw [getD_set_ne _ _ _ _ _ (hRua _ (by simp)),
      getD_set_ne _ _ _ _ _ (hRua _ (by simp)),
      getD_set_ne _ _ _ _ _ (hRua _ (by simp)),
      getD_set_ne _ _ _ _ _ (hRua _ (by simp)),
      getD_set_ne _ _ _ _ _ (hRua _ (by simp)),
      getD_set_ne _ _ _ _ _ (hRua _ (by simp)),
      getD_set_ne _ _ _ _ _ (hRua _ (by simp)),
      getD_set_ne _ _ _ _ _ (hRua _ (by simp)),
      getD_set_ne _ _ _ _ _ (hRua _ (by simp)),
      getD_set_self _ _ _ _ bRua]
  · unfold projectFrame
    rw [getD_set_ne _ _ _ _ _ (hRla _ (by simp)),
      getD_set_ne _ _ _ _ _ (hRla _ (by simp)),
      getD_set_ne _ _ _ _ _ (hRla _ (by simp)),
      getD_set_ne _ _ _ _ _ (hRla _ (by simp)),
      getD_set_ne _ _ _ _ _ (hRla _ (by simp)),
      getD_set_ne _ _ _ _ _ (hRla _ (by simp)),
      getD_set_ne _ _ _ _ _ (hRla _ (by simp)),
      getD_set_ne _ _ _ _ _ (hRla _ (by simp)),
      getD_set_self _ _ _ _ (by simpa using bRla)]
  · unfold projectFrame
    rw [getD_set_ne _ _ _ _ _ (hLua _ (by simp)),
      getD_set_ne _ _ _ _ _ (hLua _ (by simp)),
      getD_set_ne _ _ _ _ _ (hLua _ (by simp)),
      getD_set_ne _ _ _ _ _ (hLua _ (by simp)),
      getD_set_ne _ _ _ _ _ (hLua _ (by simp)),
      getD_set_ne _ _ _ _ _ (hLua _ (by simp)),
      getD_set_ne _ _ _ _ _ (hLua _ (by simp)),
      getD_set_self _ _ _ _ (by simpa using bLua)]
  · unfold projectFrame
    rw [getD_set_ne _ _ _ _ _ (hLla _ (by simp)),
      getD_set_ne _ _ _ _ _ (hLla _ (by simp)),
      getD_set_ne _ _ _ _ _ (hLla _ (by simp)),
      getD_set_ne _ _ _ _ _ (hLla _ (by simp)),
      getD_set_ne _ _ _ _ _ (hLla _ (by simp)),
      getD_set_ne _ _ _ _ _ (hLla _ (by simp)),
      getD_set_self _ _ _ _ (by simpa using bLla)]
  · unfold projectFrame
    rw [getD_set_ne _ _ _ _ _ (hRth _ (by simp)),
      getD_set_ne _ _ _ _ _ (hRth _ (by simp)),
      getD_set_ne _ _ _ _ _ (hRth _ (by simp)),
      getD_set_ne _ _ _ _ _ (hRth _ (by simp)),
      getD_set_ne _ _ _ _ _ (hRth _ (by simp)),
      getD_set_self _ _ _ _ (by simpa using bRth)]
  · unfold projectFrame
    rw [getD_set_ne _ _ _ _ _ (hRsh _ (by simp)),
      getD_set_ne _ _ _ _ _ (hRsh _ (by simp)),
      getD_set_ne _ _ _ _ _ (hRsh _ (by simp)),
      getD_set_ne _ _ _ _ _ (hRsh _ (by simp)),
      getD_set_self _ _ _ _ (by simpa using bRsh)]
  · unfold projectFrame
    rw [getD_set_ne _ _ _ _ _ (hLth _ (by simp)),
      getD_set_ne _ _ _ _ _ (hLth _ (by simp)),
      getD_set_ne _ _ _ _ _ (hLth _ (by simp)),
      getD_set_self _ _ _ _ (by simpa using bLth)]
  · unfold projectFrame
    rw [getD_set_ne _ _ _ _ _ (hLsh _ (by simp)),
      getD_set_ne _ _ _ _ _ (hLsh _ (by simp)),
      getD_set_self _ _ _ _ (by simpa using bLsh)]
  · unfold projectFrame
    rw [getD_set_ne _ _ _ _ _ (hLhand _ (by simp)),
      getD_set_self _ _ _ _ (by simpa using bLhand)]
  · unfold projectFrame
    rw [getD_set_self _ _ _ _ (by simpa using bRhand)]
  · intro j hj
    simp only [projSetIds, List.mem_cons, List.not_mem_nil, or_false, not_or] at hj
    obtain ⟨n1, n2, n3, n4, n5, n6, n7, n8, n9, n10⟩ := hj
    unfold projectFrame
    rw [getD_set_ne _ _ _ _ _ n10, getD_set_ne _ _ _ _ _ n9,
      getD_set_ne _ _ _ _ _ n8, getD_set_ne _ _ _ _ _ n7,
      getD_set_ne _ _ _ _ _ n6, getD_set_ne _ _ _ _ _ n5,
      getD_set_ne _ _ _ _ _ n4, getD_set_ne _ _ _ _ _ n3,
      getD_set_ne _ _ _ _ _ n2, getD_set_ne _ _ _ _ _ n1]
  · simp [projectFrame]

/-- C5 (amended): `_project_joints` keeps the skeleton tree, the root
translations and the fps; in every frame it changes local rotations only
at the eight arm/leg joints and the two hands; elbows get the rotation
about (0,1,0) by minus the absolute bend angle and knees by plus the
absolute bend angle, where the bend angle is the arccos of the clamped dot
product of the normalized segment directions upper-to-mid and mid-to-end
(for the claim's literal "end-to-mid" see the counterexample); shoulders
and hips are the original rotation times the compensating twist about the
normalized child local translation; both hands become the identity. -/
theorem project_joints_spec (m : MotionM)
    (hroot : m.rootTranslation.length = m.localRotation.length)
    (hnodup : (projSetIds m.tree).Nodup)
    (f : Nat) (hf : f < m.localRotation.length)
    (hbounds : ∀ id, id ∈ projSetIds m.tree →
      id < (m.localRotation.getD f []).length) :
    (projectJoints m).tree = m.tree ∧
    (projectJoints m).rootTranslation = m.rootTranslation ∧
    (projectJoints m).fps = m.fps ∧
    ((projectJoints m).localRotation.getD f []).getD
        (m.tree.nodeIndex "right_upper_arm") quatIdentity
      = rightShoulderRotF m.tree (m.localRotation.getD f [])
          (m.rootTranslation.getD f vzero) ∧
    ((projectJoints m).localRotation.getD f []).getD
        (m.tree.nodeIndex "right_lower_arm") quatIdentity
      = rightElbowQF m.tree (m.localRotation.getD f [])
          (m.rootTranslation.getD f vzero) ∧
    ((projectJoints m).localRotation.getD f []).getD
        (m.tree.nodeIndex "left_upper_arm") quatIdentity
      = leftShoulderRotF m.tree (m.localRotation.getD f [])
          (m.rootTranslation.getD f vzero) ∧
    ((projectJoints m).localRotation.getD f []).getD
        (m.tree.nodeIndex "left_lower_arm") quatIdentity
      = leftElbowQF m.tree (m.localRotation.getD f [])
          (m.rootTranslation.getD f vzero) ∧
    ((projectJoints m).localRotation.getD f []).getD
        (m.tree.nodeIndex "right_thigh") quatIdentity
      = rightHipRotF m.tree (m.localRotation.getD f [])
          (m.rootTranslation.getD f vzero) ∧
    ((projectJoints m).localRotation.getD f []).getD
        (m.tree.nodeIndex "right_shin") quatIdentity
      = rightKneeQF m.tree (m.localRotation.getD f [])
          (m.rootTranslation.getD f vzero) ∧
    ((projectJoints m).localRotation.getD f []).getD
        (m.tree.nodeIndex "left_thigh") quatIdentity
      = leftHipRotF m.tree (m.localRotation.getD f [])
          (m.rootTranslation.getD f vzero) ∧
    ((projectJoints m).localRotation.getD f []).getD
        (m.tree.nodeIndex "left_shin") quatIdentity
      = leftKneeQF m.tree (m.localRotation.getD f [])
          (m.rootTranslation.getD f vzero) ∧
    ((projectJoints m).localRotation.getD f []).getD
        (m.tree.nodeIndex "left_hand") quatIdentity = quatIdentity ∧
    ((projectJoints m).localRotation.getD f []).getD
        (m.tree.nodeIndex "right_hand") quatIdentity = quatIdentity ∧
    (∀ j, j ∉ projSetIds m.tree →
      ((projectJoints m).localRotation.getD f []).getD j quatIdentity
        = (m.localRotation.getD f []).getD j quatIdentity) ∧
    ((projectJoints m).localRotation.getD f []).length
      = (m.localRotation.getD f []).length := by
  have hframe : (projectJoints m).localRotation.getD f []
      = projectFrame m.tree (m.localRotation.getD f [])
          (m.rootTranslation.getD f vzero) := by
    unfold projectJoints
    exact getD_zipWith_poly _ [] vzero [] m.localRotation m.rootTranslation f hf
      (by rw [hroot]; exact hf)
  rcases projectFrame_getD m.tree (m.localRotation.getD f [])
      (m.rootTranslation.getD f vzero) hnodup hbounds with
    ⟨e1, e2, e3, e4, e5, e6, e7, e8, e9, e10, eo, el⟩
  rw [hframe]
  exact ⟨rfl, rfl, rfl, e1, e2, e3, e4, e5, e6, e7, e8, e9, e10, eo, el⟩

/-- Concrete 13-joint humanoid tree with a straight right arm along the
x-axis, used for the C5 counterexample and witness. -/
def cexTree : SkeletonTreeM :=
  { nodeNames := ["pelvis", "right_upper_arm", "right_lower_arm", "right_hand",
      "left_upper_arm", "left_lower_arm", "left_hand",
      "right_thigh", "right_shin", "right_foot",
      "left_thigh", "left_shin", "left_foot"],
    parents := [0, 0, 1, 2, 0, 4, 5, 0, 7, 8, 0, 10, 11],
    localTranslation := [vzero, ⟨1, 0, 0⟩, ⟨1, 0, 0⟩, ⟨1, 0, 0⟩,
      vzero, vzero, vzero, vzero, vzero, vzero, vzero, vzero, vzero] }

/-- All-identity rotations for one frame of the counterexample motion. -/
def cexRots : List Quat := List.replicate 13 quatIdentity

/-- One-frame motion on `cexTree` with identity rotations: the right arm
is straight. -/
def cexMotion : MotionM :=
  { tree := cexTree, localRotation := [cexRots],
    rootTranslation := [vzero], fps := 30 }

lemma getD_replicate_self {α : Type} (n i : Nat) (a : α) :
    (List.replicate n a).getD i a = a := by
  rcases lt_or_le i n with h | h
  · simp [List.getD_eq_getElem?_getD, List.getElem?_replicate, h]
  · rw [List.getD_eq_getElem?_getD, List.getElem?_eq_none (by simpa using h)]
    rfl

lemma quatRotate_id (v : Vec3) : quatRotate quatIdentity v = v := by
  simp only [quatRotate, quatIdentity, quatVec, vcross, vscale, vadd]
  show Vec3.mk _ _ _ = v
  have hx : v.x + (2 * 1 * (0 * v.z - 0 * v.y)
      + 2 * (0 * (0 * v.y - 0 * v.x) - 0 * (0 * v.x - 0 * v.z))) = v.x := by ring
  have hy : v.y + (2 * 1 * (0 * v.x - 0 * v.z)
      + 2 * (0 * (0 * v.z - 0 * v.y) - 0 * (0 * v.y - 0 * v.x))) = v.y := by ring
  have hz : v.z + (2 * 1 * (0 * v.y - 0 * v.x)
      + 2 * (0 * (0 * v.x - 0 * v.z) - 0 * (0 * v.z - 0 * v.y))) = v.z := by ring
  rw [hx, hy, hz]

lemma quatMul_id_id : quatMul quatIdentity quatIdentity = quatIdentity := by
  simp only [quatMul, quatIdentity]
  show Quat.mk _ _ _ _ = Quat.mk 0 0 0 1
  norm_num

lemma cexFK0 : fkPos cexTree cexRots vzero 0 = (vzero, quatIdentity) := by
  simp [fkPos, cexRots, getD_replicate_self]

lemma cexFK1 : fkPos cexTree cexRots vzero 1 = (⟨1, 0, 0⟩, quatIdentity) := by
  have h : fkPos cexTree cexRots vzero (0 + 1) = (⟨1, 0, 0⟩, quatIdentity) := by
    simp only [fkPos]
    rw [show min (cexTree.parents.getD (0 + 1) 0) 0 = 0 from rfl, cexFK0]
    rw [show cexTree.localTranslation.getD (0 + 1) vzero = ⟨1, 0, 0⟩ from rfl,
      show cexRots.getD (0 + 1) quatIdentity = quatIdentity from rfl,
      quatRotate_id, quatMul_id_id,
      show vadd vzero ⟨1, 0, 0⟩ = (⟨1, 0, 0⟩ : Vec3) from by
        simp [vadd, vzero]]
  simpa using h

lemma cexFK2 : fkPos cexTree cexRots vzero 2 = (⟨2, 0, 0⟩, quatIdentity) := by
  have h : fkPos cexTree cexRots vzero (1 + 1) = (⟨2, 0, 0⟩, quatIdentity) := by
    simp only [fkPos]
    rw [show min (cexTree.parents.getD (1 + 1) 0) 1 = 1 from rfl, cexFK1]
    rw [show cexTree.localTranslation.getD (1 + 1) vzero = ⟨1, 0, 0⟩ from rfl,
      show cexRots.getD (1 + 1) quatIdentity = quatIdentity from rfl,
      quatRotate_id, quatMul_id_id,
      show vadd ⟨1, 0, 0⟩ ⟨1, 0, 0⟩ = (⟨2, 0, 0⟩ : Vec3) from by
        simp [vadd]; norm_num]
  simpa using h

lemma cexFK3 : fkPos cexTree cexRots vzero 3 = (⟨3, 0, 0⟩, quatIdentity) := by
  have h : fkPos cexTree cexRots vzero (2 + 1) = (⟨3, 0, 0⟩, quatIdentity) := by
    simp only [fkPos]
    rw [show min (cexTree.parents.getD (2 + 1) 0) 2 = 2 from rfl, cexFK2]
    rw [show cexTree.localTranslation.getD (2 + 1) vzero = ⟨1, 0, 0⟩ from rfl,
      show cexRots.getD (2 + 1) quatIdentity = quatIdentity from rfl,
      quatRotate_id, quatMul_id_id,
      show vadd ⟨2, 0, 0⟩ ⟨1, 0, 0⟩ = (⟨3, 0, 0⟩ : Vec3) from by
        simp [vadd]; norm_num]
  simpa using h

lemma cexPos1 : (fkPos cexTree cexRots vzero 1).1 = ⟨1, 0, 0⟩ := by rw [cexFK1]

lemma cexPos2 : (fkPos cexTree cexRots vzero 2).1 = ⟨2, 0, 0⟩ := by rw [cexFK2]

lemma cexPos3 : (fkPos cexTree cexRots vzero 3).1 = ⟨3, 0, 0⟩ := by rw [cexFK3]

lemma vnorm_xunit (a : ℝ) (h : a * a = 1) : vnorm ⟨a, 0, 0⟩ = 1 := by
  show Real.sqrt (a * a + 0 * 0 + 0 * 0) = 1
  rw [show (a * a + 0 * 0 + 0 * 0 : ℝ) = 1 by rw [h]; ring]
  exact Real.sqrt_one

lemma vnormalize_xunit (a : ℝ) (h : a * a = 1) : vnormalize ⟨a, 0, 0⟩ = ⟨a, 0, 0⟩ := by
  unfold vnormalize
  rw [vnorm_xunit a h]
  simp

/-- On the straight counterexample arm, the source's bend angle is
`acos(1) = 0`. -/
lemma bend_eval : limbBendTheta ⟨1, 0, 0⟩ ⟨2, 0, 0⟩ ⟨3, 0, 0⟩ = 0 := by
  unfold limbBendTheta
  rw [show vsub ⟨1, 0, 0⟩ ⟨2, 0, 0⟩ = (⟨-1, 0, 0⟩ : Vec3) by
      simp [vsub]; try norm_num,
    show vsub ⟨3, 0, 0⟩ ⟨2, 0, 0⟩ = (⟨1, 0, 0⟩ : Vec3) by
      simp [vsub]; try norm_num,
    vnormalize_xunit (-1) (by norm_num), vnormalize_xunit 1 (by norm_num),
    show (- vdot ⟨-1, 0, 0⟩ ⟨1, 0, 0⟩ : ℝ) = 1 by simp [vdot]; try norm_num]
  unfold clampR
  rw [max_eq_left (by norm_num : (-1 : ℝ) ≤ 1), min_self]
  exact Real.arccos_one

/-- On the straight counterexample arm, the claim's literal angle
(directions upper-to-mid and end-to-mid) is `acos(-1) = pi`. -/
lemma claimBend_eval : claimElbowTheta ⟨1, 0, 0⟩ ⟨2, 0, 0⟩ ⟨3, 0, 0⟩ = Real.pi := by
  unfold claimElbowTheta
  rw [show vsub ⟨2, 0, 0⟩ ⟨1, 0, 0⟩ = (⟨1, 0, 0⟩ : Vec3) by
      simp [vsub]; try norm_num,
    show vsub ⟨2, 0, 0⟩ ⟨3, 0, 0⟩ = (⟨-1, 0, 0⟩ : Vec3) by
      simp [vsub]; try norm_num,
    vnormalize_xunit 1 (by norm_num), vnormalize_xunit (-1) (by norm_num),
    show (vdot ⟨1, 0, 0⟩ ⟨-1, 0, 0⟩ : ℝ) = -1 by simp [vdot]; try norm_num]
  unfold clampR
  rw [max_self, min_eq_left (by norm_num : (-1 : ℝ) ≤ 1)]
  exact Real.arccos_neg_one

/-- C5 counterexample: on the straight-arm motion `cexMotion`, the elbow
rotation written by `_project_joints` (a rotation by `-|acos(1)| = 0`,
whose quaternion has w = 1) differs from the rotation by minus the
absolute value of the claim's literal angle — arccos of the dot of the
upper-to-mid and end-to-mid directions, here `acos(-1) = pi` — whose
quaternion has w = cos(-pi/2) = 0. -/
theorem project_joints_claim_theta_false :
    ((projectJoints cexMotion).localRotation.getD 0 []).getD
        (cexMotion.tree.nodeIndex "right_lower_arm") quatIdentity
      ≠ quatFromAngleAxis (- abs (claimElbowTheta
          (cexMotion.globalPos 0 (cexMotion.tree.nodeIndex "right_upper_arm"))
          (cexMotion.globalPos 0 (cexMotion.tree.nodeIndex "right_lower_arm"))
          (cexMotion.globalPos 0 (cexMotion.tree.nodeIndex "right_hand"))))
        ⟨0, 1, 0⟩ := by
  have hnodup : (projSetIds cexTree).Nodup := by decide
  have hbounds : ∀ id, id ∈ projSetIds cexTree → id < cexRots.length := by decide
  have helbow := (projectFrame_getD cexTree cexRots vzero hnodup hbounds).2.1
  have hval : rightElbowQF cexTree cexRots vzero = quatFromAngleAxis 0 ⟨0, 1, 0⟩ := by
    unfold rightElbowQF
    rw [show cexTree.nodeIndex "right_upper_arm" = 1 from rfl,
      show cexTree.nodeIndex "right_lower_arm" = 2 from rfl,
      show cexTree.nodeIndex "right_hand" = 3 from rfl,
      cexPos1, cexPos2, cexPos3, bend_eval]
    rw [abs_zero, neg_zero]
  have hL : ((projectJoints cexMotion).localRotation.getD 0 []).getD
      (cexMotion.tree.nodeIndex "right_lower_arm") quatIdentity
      = quatFromAngleAxis 0 ⟨0, 1, 0⟩ := by
    show (projectFrame cexTree cexRots vzero).getD
      (cexTree.nodeIndex "right_lower_arm") quatIdentity = _
    rw [helbow, hval]
  have hgp1 : cexMotion.globalPos 0 (cexMotion.tree.nodeIndex "right_upper_arm")
      = ⟨1, 0, 0⟩ := by
    show (fkPos cexTree cexRots vzero 1).1 = _
    exact cexPos1
  have hgp2 : cexMotion.globalPos 0 (cexMotion.tree.nodeIndex "right_lower_arm")
      = ⟨2, 0, 0⟩ := by
    show (fkPos cexTree cexRots vzero 2).1 = _
    exact cexPos2
  have hgp3 : cexMotion.globalPos 0 (cexMotion.tree.nodeIndex "right_hand")
      = ⟨3, 0, 0⟩ := by
    show (fkPos cexTree cexRots vzero 3).1 = _
    exact cexPos3
  have hR : quatFromAngleAxis (- abs (claimElbowTheta
      (cexMotion.globalPos 0 (cexMotion.tree.nodeIndex "right_upper_arm"))
      (cexMotion.globalPos 0 (cexMotion.tree.nodeIndex "right_lower_arm"))
      (cexMotion.globalPos 0 (cexMotion.tree.nodeIndex "right_hand")))) ⟨0, 1, 0⟩
      = quatFromAngleAxis (- Real.pi) ⟨0, 1, 0⟩ := by
    rw [hgp1, hgp2, hgp3, claimBend_eval, abs_of_pos Real.pi_pos]
  intro h
  have hw : (quatFromAngleAxis 0 ⟨0, 1, 0⟩).w
      = (quatFromAngleAxis (- Real.pi) ⟨0, 1, 0⟩).w := by
    rw [← hL, ← hR, h]
  have hw1 : (quatFromAngleAxis 0 ⟨0, 1, 0⟩).w = 1 := by
    show Real.cos (0 / 2) = 1
    rw [zero_div, Real.cos_zero]
  have hw0 : (quatFromAngleAxis (- Real.pi) ⟨0, 1, 0⟩).w = 0 := by
    show Real.cos (- Real.pi / 2) = 0
    rw [neg_div, Real.cos_neg, Real.cos_pi_div_two]
  rw [hw1, hw0] at hw
  exact absurd hw (by norm_num)

/-- Witness for the amended C5 at the concrete motion `cexMotion`. -/
theorem project_joints_spec_witness :
    cexMotion.rootTranslation.length = cexMotion.localRotation.length ∧
    (projSetIds cexMotion.tree).Nodup ∧
    0 < cexMotion.localRotation.length ∧
    (∀ id, id ∈ projSetIds cexMotion.tree →
      id < (cexMotion.localRotation.getD 0 []).length) ∧
    (projectJoints cexMotion).fps = cexMotion.fps := by
  refine ⟨rfl, by decide, by decide, by decide, ?_⟩
  exact (project_joints_spec cexMotion rfl (by decide) 0 (by decide) (by decide)).2.2.1

/-! ## Source: utils/datalab/poselib/xsens_fbx_to_amp_npy.py —
`motion_retargeting` after `retarget_to_by_tpose` (C6)

The retargeting call itself (`retarget_to_by_tpose`, poselib) produces
`target_motion`; the claims about `motion_retargeting` concern what
happens afterwards, so the embedding takes that motion as input.  The
slice `l[frame_beg:frame_end]` is modelled for `-1`-or-nonnegative trim
parameters, which the `-1` conventions in the source presuppose.  The two
in-place `root_translation[:, 2] +=` updates become two maps over frames
changing only the z component. -/

/-- The z coordinates of every joint in every frame
(`target_motion.global_translation[..., 2]`), frame-major. -/
noncomputable def globalZs (t : SkeletonTreeM) :
    List (List Quat) → List Vec3 → List ℝ
  | rots :: lr, root :: rt =>
      ((List.range t.nodeNames.length).map (fun j => (fkPos t rots root j).1.z))
        ++ globalZs t lr rt
  | _, _ => []

/-- All global joint heights of a motion. -/
noncomputable def MotionM.allGlobalZ (m : MotionM) : List ℝ :=
  globalZs m.tree m.localRotation m.rootTranslation

/-- The trimmed motion built by `motion_retargeting`: frames
`[frame_beg : frame_end]` with the -1 conventions resolved. -/
def trimmedMotion (m : MotionM) (trimBeg trimEnd : Int) : MotionM :=
  let begN : Nat := if trimBeg = -1 then 0 else trimBeg.toNat
  let endN : Nat := if trimEnd = -1 then m.localRotation.length else trimEnd.toNat
  { tree := m.tree
    localRotation := (m.localRotation.drop begN).take (endN - begN)
    rootTranslation := (m.rootTranslation.drop begN).take (endN - begN)
    fps := m.fps }

/-- The rest of `motion_retargeting`: after trimming, subtracts the
minimum global z from every frame's root z, then adds the root height
offset, and rebuilds the motion (which is then saved). -/
noncomputable def motionRetargetingPost (m : MotionM) (trimBeg trimEnd : Int)
    (rootHeightOffset : ℝ) : MotionM :=
  let tm := trimmedMotion m trimBeg trimEnd
  let minH := listMin tm.allGlobalZ
  { tree := tm.tree
    localRotation := tm.localRotation
    rootTranslation := (tm.rootTranslation.map
        (fun r => Vec3.mk r.x r.y (r.z + (- minH)))).map
        (fun r => Vec3.mk r.x r.y (r.z + rootHeightOffset))
    fps := tm.fps }

lemma globalZs_length (t : SkeletonTreeM) :
    ∀ (lr : List (List Quat)) (rt : List Vec3), lr.length = rt.length →
      (globalZs t lr rt).length = lr.length * t.nodeNames.length
  | [], [], _ => by simp [globalZs]
  | [], _ :: _, h => by simp at h
  | _ :: _, [], h => by simp at h
  | rots :: lr, root :: rt, h => by
      have ih := globalZs_length t lr rt (by simpa using h)
      simp only [globalZs, List.length_append, List.length_map, List.length_range,
        ih, List.length_cons]
      ring

lemma globalZs_shift (t : SkeletonTreeM) (c : ℝ) :
    ∀ (lr : List (List Quat)) (rt : List Vec3),
      globalZs t lr (rt.map (fun r => Vec3.mk r.x r.y (r.z + c)))
        = (globalZs t lr rt).map (fun z => z + c)
  | [], rt => by cases rt <;> simp [globalZs]
  | rots :: lr, [] => by simp [globalZs]
  | rots :: lr, root :: rt => by
      have ih := globalZs_shift t c lr rt
      simp only [List.map_cons, globalZs, ih, List.map_append]
      congr 1
      rw [List.map_map]
      apply List.map_congr_left
      intro j _
      have hv : (Vec3.mk root.x root.y (root.z + c)) = vadd root ⟨0, 0, c⟩ := by
        simp [vadd]
      rw [hv, fkPos_shift]
      show (vadd (fkPos t rots root j).1 ⟨0, 0, c⟩).z = _
      simp [vadd]

lemma getD_map_poly {α β : Type} (f : α → β) (d1 : α) (d2 : β) (l : List α)
    (i : Nat) (h : i < l.length) : (l.map f).getD i d2 = f (l.getD i d1) := by
  simp only [List.getD_eq_getElem?_getD, List.getElem?_map]
  rw [List.getElem?_eq_getElem h]
  rfl

lemma getD_take_drop {α : Type} (d : α) (l : List α) (b k i : Nat)
    (h : i < ((l.drop b).take k).length) :
    ((l.drop b).take k).getD i d = l.getD (b + i) d := by
  have hik : i < k := lt_of_lt_of_le h (by simp [List.length_take])
  rw [List.getD_eq_getElem?_getD, List.getElem?_take, if_pos hik,
    List.getElem?_drop, ← List.getD_eq_getElem?_getD]

/-- C6: `motion_retargeting` keeps exactly the frames with indices in
`[frame_beg, frame_end - 1]` (with -1 meaning 0 resp. the frame count);
the height adjustment adds `root_height_offset - min(global z over kept
frames and joints)` to the z of every kept root translation and nothing
else; hence the minimum global joint height of the saved motion equals
`root_height_offset`; local rotations and the skeleton tree are untouched
by the height adjustment. -/
theorem motion_retargeting_trim_height (m : MotionM) (trimBeg trimEnd : Int)
    (rootHeightOffset : ℝ)
    (hb : trimBeg = -1 ∨ 0 ≤ trimBeg)
    (he : trimEnd = -1 ∨ 0 ≤ trimEnd)
    (hlen : m.rootTranslation.length = m.localRotation.length)
    (hkept : 0 < (trimmedMotion m trimBeg trimEnd).localRotation.length)
    (hjoints : 0 < m.tree.nodeNames.length) :
    (motionRetargetingPost m trimBeg trimEnd rootHeightOffset).localRotation
      = (m.localRotation.drop (if trimBeg = -1 then 0 else trimBeg.toNat)).take
          ((if trimEnd = -1 then m.localRotation.length else trimEnd.toNat)
            - (if trimBeg = -1 then 0 else trimBeg.toNat)) ∧
    (∀ i, i < (motionRetargetingPost m trimBeg trimEnd rootHeightOffset).localRotation.length →
      (motionRetargetingPost m trimBeg trimEnd rootHeightOffset).localRotation.getD i []
        = m.localRotation.getD ((if trimBeg = -1 then 0 else trimBeg.toNat) + i) []) ∧
    (∀ i, i < (trimmedMotion m trimBeg trimEnd).rootTranslation.length →
      ((motionRetargetingPost m trimBeg trimEnd rootHeightOffset).rootTranslation.getD i vzero).z
          = ((trimmedMotion m trimBeg trimEnd).rootTranslation.getD i vzero).z
            + (rootHeightOffset
              - listMin (trimmedMotion m trimBeg trimEnd).allGlobalZ) ∧
      ((motionRetargetingPost m trimBeg trimEnd rootHeightOffset).rootTranslation.getD i vzero).x
          = ((trimmedMotion m trimBeg trimEnd).rootTranslation.getD i vzero).x ∧
      ((motionRetargetingPost m trimBeg trimEnd rootHeightOffset).rootTranslation.getD i vzero).y
          = ((trimmedMotion m trimBeg trimEnd).rootTranslation.getD i vzero).y) ∧
    listMin (motionRetargetingPost m trimBeg trimEnd rootHeightOffset).allGlobalZ
      = rootHeightOffset ∧
    (motionRetargetingPost m trimBeg trimEnd rootHeightOffset).localRotation
      = (trimmedMotion m trimBeg trimEnd).localRotation ∧
    (motionRetargetingPost m trimBeg trimEnd rootHeightOffset).tree = m.tree ∧
    (motionRetargetingPost m trimBeg trimEnd rootHeightOffset).fps = m.fps := by
  have htmlen : (trimmedMotion m trimBeg trimEnd).rootTranslation.length
      = (trimmedMotion m trimBeg trimEnd).localRotation.length := by
    simp [trimmedMotion, List.length_take, List.length_drop, hlen]
  refine ⟨rfl, ?_, ?_, ?_, rfl, rfl, rfl⟩
  · intro i hi
    exact getD_take_drop [] m.localRotation _ _ i hi
  · intro i hi
    have h1 : i < ((trimmedMotion m trimBeg trimEnd).rootTranslation.map
        (fun r => Vec3.mk r.x r.y
          (r.z + (- listMin (trimmedMotion m trimBeg trimEnd).allGlobalZ)))).length := by
      simpa using hi
    refine ⟨?_, ?_, ?_⟩ <;>
    · rw [show (motionRetargetingPost m trimBeg trimEnd rootHeightOffset).rootTranslation
            = ((trimmedMotion m trimBeg trimEnd).rootTranslation.map
                (fun r => Vec3.mk r.x r.y
                  (r.z + (- listMin (trimmedMotion m trimBeg trimEnd).allGlobalZ)))).map
                (fun r => Vec3.mk r.x r.y (r.z + rootHeightOffset)) from rfl,
        getD_map_poly _ vzero vzero _ i h1,
        getD_map_poly _ vzero vzero _ i hi]
      try simp
      try ring
  · have hzeq : (motionRetargetingPost m trimBeg trimEnd rootHeightOffset).allGlobalZ
        = (((trimmedMotion m trimBeg trimEnd).allGlobalZ.map
            (fun z => z + (- listMin (trimmedMotion m trimBeg trimEnd).allGlobalZ))).map
            (fun z => z + rootHeightOffset)) := by
      show globalZs m.tree (trimmedMotion m trimBeg trimEnd).localRotation
          (((trimmedMotion m trimBeg trimEnd).rootTranslation.map
            (fun r => Vec3.mk r.x r.y
              (r.z + (- listMin (trimmedMotion m trimBeg trimEnd).allGlobalZ)))).map
            (fun r => Vec3.mk r.x r.y (r.z + rootHeightOffset))) = _
      rw [globalZs_shift, globalZs_shift]
      rfl
    have hne : (trimmedMotion m trimBeg trimEnd).allGlobalZ ≠ [] := by
      have hlen2 : ((trimmedMotion m trimBeg trimEnd).allGlobalZ).length
          = (trimmedMotion m trimBeg trimEnd).localRotation.length
            * m.tree.nodeNames.length := by
        have := globalZs_length m.tree (trimmedMotion m trimBeg trimEnd).localRotation
          (trimmedMotion m trimBeg trimEnd).rootTranslation
          (by rw [htmlen])
        exact this
      apply List.ne_nil_of_length_pos
      rw [hlen2]
      exact Nat.mul_pos hkept hjoints
    have hne1 : ((trimmedMotion m trimBeg trimEnd).allGlobalZ.map
        (fun z => z + (- listMin (trimmedMotion m trimBeg trimEnd).allGlobalZ))) ≠ [] := by
      simpa using hne
    rw [hzeq, listMin_map_add _ _ hne1, listMin_map_add _ _ hne]
    ring

/-- Witness for C6 at the concrete one-frame motion `cexMotion`, trim
parameters (0, -1) and offset 5. -/
theorem motion_retargeting_trim_height_witness :
    ((0 : Int) = -1 ∨ (0 : Int) ≤ 0) ∧ ((-1 : Int) = -1 ∨ (0 : Int) ≤ -1) ∧
    cexMotion.rootTranslation.length = cexMotion.localRotation.length ∧
    0 < (trimmedMotion cexMotion 0 (-1)).localRotation.length ∧
    0 < cexMotion.tree.nodeNames.length ∧
    (motionRetargetingPost cexMotion 0 (-1) 5).fps = cexMotion.fps := by
  refine ⟨by decide, by decide, rfl, by decide, by decide, ?_⟩
  exact (motion_retargeting_trim_height cexMotion 0 (-1) 5 (by decide) (by decide)
    rfl (by decide) (by decide)).2.2.2.2.2.2

/-! ## Source: devices/zed/record.py — `record` (C8)

The filesystem is a list of existing directory paths; `os.path.exists` is
membership and `os.mkdir` prepends the path.  The observable actions after
the directory check are recorded as an event trace: the `mkdir`, then one
camera-open per detected camera (the recording threads the function then
starts loop forever and are beyond the sequential model).  `record`
returns the final filesystem together with either the raised exception
message or the event trace. -/

/-- An observable action of `record`. -/
inductive ZedEvent
  | mkdirEvt (path : String)
  | openCamera (serial : Nat)

/-- `record(root_dir, exp_name)` over an abstract filesystem and camera
list: raises if `root_dir/exp_name` exists, otherwise creates it and then
opens every detected camera. -/
def recordRun (fs : List String) (rootDir expName : String) (cameras : List Nat) :
    List String × Except String (List ZedEvent) :=
  let path := rootDir ++ "/" ++ expName
  if path ∈ fs then
    (fs, Except.error ("There are already some files in " ++ path
      ++ ", please rename the exp_name."))
  else
    (path :: fs, Except.ok (ZedEvent.mkdirEvt path :: cameras.map ZedEvent.openCamera))

/-- Whether a `record` outcome is the raised exception. -/
def recordFailed (r : List String × Except String (List ZedEvent)) : Bool :=
  match r.2 with
  | Except.error _ => true
  | Except.ok _ => false

/-- C8: if `root_dir/exp_name` already exists, `record` raises and the
filesystem is unchanged (no directory is created); otherwise it creates
exactly that directory, and the event trace opens cameras only after the
`mkdir`; after the successful call the directory exists, so a second call
with the same arguments always fails. -/
theorem record_directory_contract (fs : List String) (rootDir expName : String)
    (cameras : List Nat) :
    ((rootDir ++ "/" ++ expName) ∈ fs →
      recordFailed (recordRun fs rootDir expName cameras) = true ∧
      (recordRun fs rootDir expName cameras).1 = fs) ∧
    ((rootDir ++ "/" ++ expName) ∉ fs →
      (recordRun fs rootDir expName cameras).1
          = (rootDir ++ "/" ++ expName) :: fs ∧
      (recordRun fs rootDir expName cameras).2
          = Except.ok (ZedEvent.mkdirEvt (rootDir ++ "/" ++ expName)
              :: cameras.map ZedEvent.openCamera) ∧
      (rootDir ++ "/" ++ expName) ∈ (recordRun fs rootDir expName cameras).1 ∧
      recordFailed (recordRun (recordRun fs rootDir expName cameras).1
        rootDir expName cameras) = true) := by
  constructor
  · intro hmem
    unfold recordRun recordFailed
    rw [if_pos hmem]
    exact ⟨rfl, rfl⟩
  · intro hmem
    have h1 : (recordRun fs rootDir expName cameras).1
        = (rootDir ++ "/" ++ expName) :: fs := by
      unfold recordRun
      rw [if_neg hmem]
    refine ⟨h1, ?_, ?_, ?_⟩
    · unfold recordRun
      rw [if_neg hmem]
    · rw [h1]
      exact List.mem_cons_self _ _
    · rw [h1]
      unfold recordRun recordFailed
      rw [if_pos (List.mem_cons_self _ _)]

/-- Witness for C8: on an empty filesystem, recording succeeds and a
second identical call fails. -/
theorem record_directory_contract_witness :
    ("data" ++ "/" ++ "exp1") ∉ ([] : List String) ∧
    recordFailed (recordRun (recordRun [] "data" "exp1" [7]).1
      "data" "exp1" [7]) = true := by
  have hmem : ("data" ++ "/" ++ "exp1") ∉ ([] : List String) := by simp
  exact ⟨hmem,
    ((record_directory_contract [] "data" "exp1" [7]).2 hmem).2.2.2⟩

/-- Concrete transition row used to instantiate `combined_rewards_composition`. -/
def storeWitnessRow : TransitionRow :=
  { state := [0], nextState := [0], reward := 2, terminated := false,
    ampState := [0], needTerminate := false }

/-- Witness for C3 at a single concrete transition. -/
theorem combined_rewards_composition_witness :
    gaeWitnessAgent.rewardsShaper = none ∧
    (gaeWitnessAgent.storeAll HLMMMemory.empty [storeWitnessRow]).rewards
      = [storeWitnessRow].map (fun row => row.reward) :=
  ⟨rfl, (combined_rewards_composition gaeWitnessAgent [storeWitnessRow] rfl).1⟩

end Rofunc
